import Mathlib

/-!
Verification of the media-composition core of the cricket-commentary-generator
repository (`src/video_composer.py`) against its natural-language specification.

The Python code is shallowly embedded: durations and offsets are rationals
(Python floats are modelled exactly, since all spec claims are about the exact
arithmetic the code performs), the ffmpeg filtergraph is an explicit syntax
tree, and every effectful step (file probing, subprocess runs) is driven by an
explicit environment value so the control flow becomes a pure function.
-/

set_option autoImplicit false

namespace VideoComposer

/-! ### Timeline scheduler

Embedding of the master-timeline loop of `compose_video_ffmpeg_with_crossfade`
(`src/video_composer.py`, lines 209-224):

    clip_start_times = []
    current_offset_s = 0.0
    for i, info in enumerate(inputs_info):
        clip_start_times.append(current_offset_s)
        clip_effective_duration = info['duration'] -
            (transition_duration if i < len(inputs_info) - 1 else 0)
        clip_effective_duration = max(0.01, clip_effective_duration)
        current_offset_s += clip_effective_duration
    final_duration_estimate = current_offset_s
-/

/-- One pass of the timeline loop starting from offset `cur`: every clip but
the last contributes `max 0.01 (duration - transition)`, the last contributes
`max 0.01 duration`.  Returns the list of per-clip start offsets and the final
cumulative offset. -/
def scheduleFrom (t : ℚ) : ℚ → List ℚ → List ℚ × ℚ
  | cur, [] => ([], cur)
  | cur, [d] => ([cur], cur + max (1/100) d)
  | cur, d :: d2 :: rest =>
    let r := scheduleFrom t (cur + max (1/100) (d - t)) (d2 :: rest)
    (cur :: r.1, r.2)

/-- The `clip_start_times` list computed by the composer. -/
def clipStartTimes (durs : List ℚ) (t : ℚ) : List ℚ :=
  (scheduleFrom t 0 durs).1

/-- The `final_duration_estimate` computed by the composer. -/
def finalDurationEstimate (durs : List ℚ) (t : ℚ) : ℚ :=
  (scheduleFrom t 0 durs).2

theorem scheduleFrom_single (t cur d : ℚ) :
    scheduleFrom t cur [d] = ([cur], cur + max (1/100) d) := rfl

theorem scheduleFrom_fst_cons_cons (t cur d d2 : ℚ) (rest : List ℚ) :
    (scheduleFrom t cur (d :: d2 :: rest)).1 =
      cur :: (scheduleFrom t (cur + max (1/100) (d - t)) (d2 :: rest)).1 := rfl

theorem scheduleFrom_snd_cons_cons (t cur d d2 : ℚ) (rest : List ℚ) :
    (scheduleFrom t cur (d :: d2 :: rest)).2 =
      (scheduleFrom t (cur + max (1/100) (d - t)) (d2 :: rest)).2 := rfl

theorem scheduleFrom_length (t : ℚ) :
    ∀ (durs : List ℚ) (cur : ℚ), ((scheduleFrom t cur durs).1).length = durs.length := by
  intro durs
  induction durs with
  | nil => intro cur; rfl
  | cons d rest ih =>
    intro cur
    cases rest with
    | nil => rfl
    | cons d2 rest2 =>
      rw [scheduleFrom_fst_cons_cons, List.length_cons, List.length_cons, ih]

theorem clipStartTimes_length (durs : List ℚ) (t : ℚ) :
    (clipStartTimes durs t).length = durs.length :=
  scheduleFrom_length t durs 0

theorem scheduleFrom_head (t cur d : ℚ) (rest : List ℚ) :
    ((scheduleFrom t cur (d :: rest)).1).getD 0 0 = cur := by
  cases rest with
  | nil => rfl
  | cons d2 rest2 => rw [scheduleFrom_fst_cons_cons, List.getD_cons_zero]

/-- The loop recurrence: each offset is the previous one plus the previous
clip's floored effective duration. -/
theorem scheduleFrom_getD_succ (t : ℚ) :
    ∀ (durs : List ℚ) (cur : ℚ) (i : ℕ), i + 1 < durs.length →
    ((scheduleFrom t cur durs).1).getD (i + 1) 0 =
      ((scheduleFrom t cur durs).1).getD i 0 + max (1/100) (durs.getD i 0 - t) := by
  intro durs
  induction durs with
  | nil => intro cur i h; simp at h
  | cons d rest ih =>
    intro cur i h
    cases rest with
    | nil => simp at h
    | cons d2 rest2 =>
      rw [scheduleFrom_fst_cons_cons]
      cases i with
      | zero =>
        rw [List.getD_cons_succ, List.getD_cons_zero, List.getD_cons_zero,
          scheduleFrom_head]
      | succ j =>
        have h2 : j + 1 < (d2 :: rest2).length := Nat.lt_of_succ_lt_succ h
        rw [List.getD_cons_succ, List.getD_cons_succ, List.getD_cons_succ]
        exact ih (cur + max (1/100) (d - t)) j h2

/-- Every offset produced from starting point `cur` is at least `cur`. -/
theorem scheduleFrom_le (t : ℚ) :
    ∀ (durs : List ℚ) (cur : ℚ) (i : ℕ), i < durs.length →
    cur ≤ ((scheduleFrom t cur durs).1).getD i 0 := by
  intro durs
  induction durs with
  | nil => intro cur i h; simp at h
  | cons d rest ih =>
    intro cur i h
    cases rest with
    | nil =>
      have hi : i = 0 := Nat.lt_one_iff.mp h
      subst hi
      rw [scheduleFrom_single, List.getD_cons_zero]
    | cons d2 rest2 =>
      rw [scheduleFrom_fst_cons_cons]
      cases i with
      | zero => rw [List.getD_cons_zero]
      | succ j =>
        have h2 : j < (d2 :: rest2).length := Nat.lt_of_succ_lt_succ h
        have step : cur ≤ cur + max (1/100) (d - t) := by
          have hmax : (0:ℚ) ≤ max (1/100) (d - t) :=
            le_trans (by norm_num) (le_max_left _ _)
          linarith
        have ihh := ih (cur + max (1/100) (d - t)) j h2
        rw [List.getD_cons_succ]
        exact le_trans step ihh

/-- Start offsets are nonnegative. -/
theorem clipStartTimes_nonneg (durs : List ℚ) (t : ℚ) (i : ℕ) (h : i < durs.length) :
    0 ≤ (clipStartTimes durs t).getD i 0 :=
  scheduleFrom_le t durs 0 i h

/-- Offsets are monotonically non-decreasing on valid indices. -/
theorem clipStartTimes_mono (durs : List ℚ) (t : ℚ) (i j : ℕ)
    (hij : i ≤ j) (hj : j < durs.length) :
    (clipStartTimes durs t).getD i 0 ≤ (clipStartTimes durs t).getD j 0 := by
  induction j, hij using Nat.le_induction with
  | base => exact le_refl _
  | succ k hk ih =>
    have hk2 : k < durs.length := Nat.lt_of_succ_lt hj
    have step := scheduleFrom_getD_succ t durs 0 k hj
    have hmax : (0:ℚ) ≤ max (1/100) (durs.getD k 0 - t) :=
      le_trans (by norm_num) (le_max_left _ _)
    have h1 := ih hk2
    unfold clipStartTimes at h1 ⊢
    linarith [step]

/-- The final cumulative offset is the last start offset plus the last clip's
floored duration. -/
theorem scheduleFrom_snd_eq_last (t : ℚ) :
    ∀ (durs : List ℚ) (cur : ℚ), durs ≠ [] →
    (scheduleFrom t cur durs).2 =
      ((scheduleFrom t cur durs).1).getD (durs.length - 1) 0 +
        max (1/100) (durs.getD (durs.length - 1) 0) := by
  intro durs
  induction durs with
  | nil => intro cur h; exact absurd rfl h
  | cons d rest ih =>
    intro cur _
    cases rest with
    | nil =>
      rw [scheduleFrom_single]
      simp
    | cons d2 rest2 =>
      have hne : (d2 :: rest2) ≠ [] := by simp
      have ihh := ih (cur + max (1/100) (d - t)) hne
      rw [scheduleFrom_snd_cons_cons, scheduleFrom_fst_cons_cons, ihh]
      simp only [List.length_cons, Nat.add_sub_cancel, List.getD_cons_succ]

theorem getD_replicate_of_lt (n i : ℕ) (d : ℚ) (h : i < n) :
    (List.replicate n d).getD i 0 = d := by
  rw [List.getD_eq_getElem _ _ (by simpa using h)]
  simp

/-- C1: for every non-empty filtered clip list, the computed timeline satisfies
`offset[0] = 0`; for `i > 0`, `offset[i] = offset[i-1] + max 0.01
(duration[i-1] - transitionDuration)` (the 0.01 s floor is the clamp the claim
describes); the offsets are monotonically non-decreasing; and, since every
clip surviving the probing filter has duration at least the floor, the total
output duration equals `offset[last] + duration[last]`. -/
theorem C1_timeline_invariants (durs : List ℚ) (t : ℚ) (hne : durs ≠ [])
    (hlast : 1/100 ≤ durs.getD (durs.length - 1) 0) :
    (clipStartTimes durs t).getD 0 0 = 0 ∧
    (∀ i, i + 1 < durs.length →
      (clipStartTimes durs t).getD (i + 1) 0 =
        (clipStartTimes durs t).getD i 0 + max (1/100) (durs.getD i 0 - t)) ∧
    (∀ i j, i ≤ j → j < durs.length →
      (clipStartTimes durs t).getD i 0 ≤ (clipStartTimes durs t).getD j 0) ∧
    finalDurationEstimate durs t =
      (clipStartTimes durs t).getD (durs.length - 1) 0 +
        durs.getD (durs.length - 1) 0 := by
  refine ⟨?_, ?_, ?_, ?_⟩
  · obtain ⟨d, rest, rfl⟩ := List.exists_cons_of_ne_nil hne
    exact scheduleFrom_head t 0 d rest
  · intro i h
    exact scheduleFrom_getD_succ t durs 0 i h
  · intro i j hij hj
    exact clipStartTimes_mono durs t i j hij hj
  · have h := scheduleFrom_snd_eq_last t durs 0 hne
    unfold finalDurationEstimate clipStartTimes
    rw [h, max_eq_right hlast]

/-- Witness for C1 at the spec's concrete scenario: three 6-second clips with
a 1-second transition. -/
theorem C1_timeline_invariants_witness :
    (clipStartTimes [6, 6, 6] 1).getD 0 0 = 0 ∧
    (∀ i, i + 1 < ([6, 6, 6] : List ℚ).length →
      (clipStartTimes [6, 6, 6] 1).getD (i + 1) 0 =
        (clipStartTimes [6, 6, 6] 1).getD i 0 +
          max (1/100) (([6, 6, 6] : List ℚ).getD i 0 - 1)) ∧
    (∀ i j, i ≤ j → j < ([6, 6, 6] : List ℚ).length →
      (clipStartTimes [6, 6, 6] 1).getD i 0 ≤ (clipStartTimes [6, 6, 6] 1).getD j 0) ∧
    finalDurationEstimate [6, 6, 6] 1 =
      (clipStartTimes [6, 6, 6] 1).getD (([6, 6, 6] : List ℚ).length - 1) 0 +
        ([6, 6, 6] : List ℚ).getD (([6, 6, 6] : List ℚ).length - 1) 0 :=
  C1_timeline_invariants [6, 6, 6] 1 (by decide) (by norm_num)

/-- C3 fails as stated: with two 1-second clips and transition 0.995 s
(strictly less than the clip duration), the 0.01 s effective-duration floor
makes the total 1.01 s, not `2*1 - 1*0.995 = 1.005` s — a 5 ms gap that is not
floating rounding. -/
theorem C3_counterexample :
    (199/200 : ℚ) < 1 ∧
    finalDurationEstimate [1, 1] (199/200) ≠ 2 * 1 - (2 - 1) * (199/200 : ℚ) := by
  constructor
  · norm_num
  · unfold finalDurationEstimate
    rw [scheduleFrom_snd_cons_cons, scheduleFrom_single,
      show ((1:ℚ) - 199/200) = 1/200 by norm_num,
      max_eq_left (by norm_num : (1:ℚ)/200 ≤ 1/100),
      max_eq_right (by norm_num : (1:ℚ)/100 ≤ 1)]
    norm_num

/-- C3 amended: for `n` clips of uniform duration `d` with `d - t ≥ 0.01` and
`d ≥ 0.01` (instead of merely `t < d`), the start offsets are `i*(d - t)` and
the total output duration is exactly `n*d - (n-1)*t`. -/
theorem C3_uniform_total_amended (n : ℕ) (d t : ℚ) (hn : 1 ≤ n)
    (hdt : 1/100 ≤ d - t) (hd : 1/100 ≤ d) :
    (∀ i, i < n →
      (clipStartTimes (List.replicate n d) t).getD i 0 = (i : ℚ) * (d - t)) ∧
    finalDurationEstimate (List.replicate n d) t =
      (n : ℚ) * d - ((n : ℚ) - 1) * t := by
  have hlen : (List.replicate n d).length = n := List.length_replicate n d
  have hoffs : ∀ i, i < n →
      (clipStartTimes (List.replicate n d) t).getD i 0 = (i : ℚ) * (d - t) := by
    intro i
    induction i with
    | zero =>
      intro _
      obtain ⟨m, rfl⟩ : ∃ m, n = m + 1 :=
        ⟨n - 1, (Nat.succ_pred_eq_of_pos hn).symm⟩
      rw [List.replicate_succ]
      unfold clipStartTimes
      rw [scheduleFrom_head]
      norm_num
    | succ j ih =>
      intro h
      have hj : j < n := Nat.lt_of_succ_lt h
      have hrec := scheduleFrom_getD_succ t (List.replicate n d) 0 j
        (by rw [hlen]; exact h)
      unfold clipStartTimes
      rw [hrec, getD_replicate_of_lt n j d hj]
      unfold clipStartTimes at ih
      rw [ih hj, max_eq_right hdt]
      push_cast
      ring
  refine ⟨hoffs, ?_⟩
  have hne : List.replicate n d ≠ [] := by
    intro hcon
    have h2 := congrArg List.length hcon
    simp at h2
    omega
  have hsnd := scheduleFrom_snd_eq_last t (List.replicate n d) 0 hne
  have hsub : n - 1 < n := Nat.sub_lt (by omega) one_pos
  unfold finalDurationEstimate
  rw [hsnd, hlen, getD_replicate_of_lt n (n - 1) d hsub, max_eq_right hd]
  have hlastoff := hoffs (n - 1) hsub
  unfold clipStartTimes at hlastoff
  rw [hlastoff]
  have hcast : ((n - 1 : ℕ) : ℚ) = (n : ℚ) - 1 := by
    push_cast [Nat.cast_sub hn]
    ring
  rw [hcast]
  ring

/-- Witness for the amended C3 at the spec's scenario: 3 clips of 6 s with a
1 s transition give offsets `i * 5` and total duration 16 s. -/
theorem C3_uniform_total_amended_witness :
    (∀ i, i < 3 →
      (clipStartTimes (List.replicate 3 (6:ℚ)) 1).getD i 0 = (i : ℚ) * (6 - 1)) ∧
    finalDurationEstimate (List.replicate 3 (6:ℚ)) 1 =
      (3 : ℚ) * 6 - ((3 : ℚ) - 1) * 1 :=
  C3_uniform_total_amended 3 6 1 (by norm_num) (by norm_num) (by norm_num)

/-! ### Millisecond truncation

`start_time_ms = int(start_time_s * 1000)` (line 267): Python `int()` on a
float truncates toward zero. -/

/-- Python `int()` on a rational: truncation toward zero. -/
def pyInt (q : ℚ) : ℤ := if 0 ≤ q then ⌊q⌋ else ⌈q⌉

/-- A rational that is a whole number of milliseconds. -/
def wholeMs (q : ℚ) : Prop := (q * 1000).den = 1

instance (q : ℚ) : Decidable (wholeMs q) := by
  unfold wholeMs
  infer_instance

theorem wholeMs_iff (q : ℚ) : wholeMs q ↔ ∃ k : ℤ, q = (k : ℚ) / 1000 := by
  unfold wholeMs
  constructor
  · intro h
    refine ⟨(q * 1000).num, ?_⟩
    have h2 : (((q * 1000).num : ℤ) : ℚ) = q * 1000 := (Rat.den_eq_one_iff _).mp h
    rw [h2]
    field_simp
  · rintro ⟨k, rfl⟩
    have h2 : ((k : ℚ) / 1000) * 1000 = (k : ℚ) := by field_simp
    rw [h2, Rat.den_intCast]

theorem wholeMs_zero : wholeMs 0 :=
  (wholeMs_iff 0).mpr ⟨0, by norm_num⟩

theorem wholeMs_add {a b : ℚ} (ha : wholeMs a) (hb : wholeMs b) : wholeMs (a + b) := by
  obtain ⟨j, rfl⟩ := (wholeMs_iff a).mp ha
  obtain ⟨k, rfl⟩ := (wholeMs_iff b).mp hb
  exact (wholeMs_iff _).mpr ⟨j + k, by push_cast; ring⟩

theorem wholeMs_sub {a b : ℚ} (ha : wholeMs a) (hb : wholeMs b) : wholeMs (a - b) := by
  obtain ⟨j, rfl⟩ := (wholeMs_iff a).mp ha
  obtain ⟨k, rfl⟩ := (wholeMs_iff b).mp hb
  exact (wholeMs_iff _).mpr ⟨j - k, by push_cast; ring⟩

theorem pyInt_intCast (k : ℤ) : pyInt (k : ℚ) = k := by
  unfold pyInt
  split
  · exact Int.floor_intCast k
  · exact Int.ceil_intCast k

/-- When the offset is a whole number of milliseconds the `int()` truncation
is exact: the delay in seconds equals the offset. -/
theorem pyInt_wholeMs_div (q : ℚ) (h : wholeMs q) :
    ((pyInt (q * 1000) : ℤ) : ℚ) / 1000 = q := by
  obtain ⟨k, rfl⟩ := (wholeMs_iff q).mp h
  have h2 : ((k : ℚ) / 1000) * 1000 = (k : ℚ) := by field_simp
  rw [h2, pyInt_intCast]

/-- For a nonnegative offset, `int()` truncation loses strictly less than one
unit and never rounds up. -/
theorem pyInt_nonneg_bounds (q : ℚ) (h : 0 ≤ q) :
    ((pyInt q : ℤ) : ℚ) ≤ q ∧ q - 1 < ((pyInt q : ℤ) : ℚ) := by
  unfold pyInt
  rw [if_pos h]
  exact ⟨Int.floor_le q, by linarith [Int.lt_floor_add_one q]⟩

/-! ### Filtergraph model

The per-clip entries of `inputs_info` and the ffmpeg filtergraph built at
lines 227-308, as an explicit syntax tree.  Unary filters carry no parameters
here because no claim depends on them; the constructors record the graph
shape, and `vduration`/`aduration` give the stream-length semantics. -/

/-- One entry of `inputs_info`. -/
structure ClipInfo where
  duration : ℚ
  width : ℤ
  height : ℤ
  hasAudio : Bool
  isTemp : Bool
deriving DecidableEq

def defaultClip : ClipInfo := ⟨0, 0, 0, false, false⟩

/-- Video filter chains: per-clip `scale`/`pad` (conditional), `fps`,
`setsar`, `format`, and pairwise `xfade` with transition duration and
scheduled offset. -/
inductive VStream where
  | source (i : ℕ)
  | scaled (s : VStream)
  | padded (s : VStream)
  | fpsNorm (s : VStream)
  | sarNorm (s : VStream)
  | fmtNorm (s : VStream)
  | xfade (a b : VStream) (dur offset : ℚ)
deriving DecidableEq

/-- Audio filter chains: a clip's own track (`source`), generated silence of a
given length (`anullsrc` with `t=`), `aformat`, `aresample`, and `adelay` with
one integer millisecond delay per stereo channel. -/
inductive AStream where
  | source (i : ℕ)
  | silence (d : ℚ)
  | aformat (s : AStream)
  | aresample (s : AStream)
  | adelay (d1 d2 : ℤ) (s : AStream)
deriving DecidableEq

/-- The final narration audio: either the lone delayed stream (single-clip
path, line 304) or `amix` of all delayed streams with `duration=longest`
(lines 295-299). -/
inductive AMix where
  | single (s : AStream)
  | longest (ss : List AStream)
deriving DecidableEq

/-- Per-clip video processing (lines 236-251): scale+pad only when the clip's
stored dimensions differ from the target, then fps/SAR/pixel-format
normalization. -/
def buildVideoOne (tw th : ℤ) (info : ClipInfo) (i : ℕ) : VStream :=
  let v := VStream.source i
  let v := if info.width ≠ tw ∨ info.height ≠ th then VStream.padded (VStream.scaled v) else v
  VStream.fmtNorm (VStream.sarNorm (VStream.fpsNorm v))

/-- Per-clip base audio (lines 255-263): the clip's own audio reformatted and
resampled when present, otherwise generated silence of exactly the clip's
stored duration. -/
def buildAudioBase (info : ClipInfo) (i : ℕ) : AStream :=
  if info.hasAudio then AStream.aresample (AStream.aformat (AStream.source i))
  else AStream.silence info.duration

/-- Lines 265-271: the delay `int(start_time_s * 1000)` applied via `adelay`
with the same value for both stereo channels. -/
def buildAudioDelayed (info : ClipInfo) (i : ℕ) (off : ℚ) : AStream :=
  AStream.adelay (pyInt (off * 1000)) (pyInt (off * 1000)) (buildAudioBase info i)

/-- The `audio_streams_for_mixing` loop, carrying the clip index. -/
def mixInputsAux (k : ℕ) : List ClipInfo → List ℚ → List AStream
  | [], _ => []
  | _ :: _, [] => []
  | info :: infos, off :: offs =>
    buildAudioDelayed info k off :: mixInputsAux (k + 1) infos offs

def audioStreamsForMixing (infos : List ClipInfo) (t : ℚ) : List AStream :=
  mixInputsAux 0 infos (clipStartTimes (infos.map fun c => c.duration) t)

/-- The `video_inputs_processed` list. -/
def videoInputsAux (tw th : ℤ) (k : ℕ) : List ClipInfo → List VStream
  | [] => []
  | info :: infos => buildVideoOne tw th info k :: videoInputsAux tw th (k + 1) infos

/-- The xfade fold of lines 284-291: each later clip is faded in at its
scheduled start offset. -/
def xfadeChain (t : ℚ) : VStream → List (VStream × ℚ) → VStream
  | acc, [] => acc
  | acc, (v, off) :: rest => xfadeChain t (VStream.xfade acc v t off) rest

/-- `processed_video` (lines 282-308): a single clip passes through; two or
more are chained with xfade at the scheduled offsets; none is an error. -/
def processedVideo (tw th : ℤ) (infos : List ClipInfo) (t : ℚ) : Option VStream :=
  match videoInputsAux tw th 0 infos, clipStartTimes (infos.map fun c => c.duration) t with
  | [], _ => none
  | [v], _ => some v
  | v :: vs, offs => some (xfadeChain t v (vs.zip (offs.drop 1)))

/-- `processed_audio`: `amix` with `duration=longest` over all delayed streams
for two or more clips, the lone delayed stream for one clip. -/
def processedAudio (infos : List ClipInfo) (t : ℚ) : Option AMix :=
  match audioStreamsForMixing infos t with
  | [] => none
  | [a] => some (AMix.single a)
  | a :: rest => some (AMix.longest (a :: rest))

/-- Stream length of a processed video stream.  Each input is opened with
`t=duration`, so `source i` plays for the i-th stored duration; unary filters
preserve length; `xfade` output ends at `offset` plus the incoming clip's
length. -/
def vduration (durs : List ℚ) : VStream → ℚ
  | VStream.source i => durs.getD i 0
  | VStream.scaled s => vduration durs s
  | VStream.padded s => vduration durs s
  | VStream.fpsNorm s => vduration durs s
  | VStream.sarNorm s => vduration durs s
  | VStream.fmtNorm s => vduration durs s
  | VStream.xfade _ b _ off => off + vduration durs b

/-- Stream length of an audio stream: `adelay` pads the start of each channel,
so the length grows by the larger channel delay (in seconds). -/
def aduration (durs : List ℚ) : AStream → ℚ
  | AStream.source i => durs.getD i 0
  | AStream.silence d => d
  | AStream.aformat s => aduration durs s
  | AStream.aresample s => aduration durs s
  | AStream.adelay d1 d2 s => ((max d1 d2 : ℤ) : ℚ) / 1000 + aduration durs s

/-- Mixed-output length: `duration=longest` keeps the longest contributing
stream; the single-stream path keeps its stream's length. -/
def amixDuration (durs : List ℚ) : AMix → ℚ
  | AMix.single s => aduration durs s
  | AMix.longest ss => (ss.map (aduration durs)).foldr max 0

def videoTrackDuration (tw th : ℤ) (infos : List ClipInfo) (t : ℚ) : ℚ :=
  match processedVideo tw th infos t with
  | none => 0
  | some v => vduration (infos.map fun c => c.duration) v

def audioMixDuration (infos : List ClipInfo) (t : ℚ) : ℚ :=
  match processedAudio infos t with
  | none => 0
  | some m => amixDuration (infos.map fun c => c.duration) m

/-- Whether a video stream contains any crossfade transition. -/
def VStream.hasXfade : VStream → Bool
  | VStream.source _ => false
  | VStream.scaled s => s.hasXfade
  | VStream.padded s => s.hasXfade
  | VStream.fpsNorm s => s.hasXfade
  | VStream.sarNorm s => s.hasXfade
  | VStream.fmtNorm s => s.hasXfade
  | VStream.xfade _ _ _ _ => true

theorem mixInputsAux_cons (k : ℕ) (info : ClipInfo) (infos : List ClipInfo)
    (off : ℚ) (offs : List ℚ) :
    mixInputsAux k (info :: infos) (off :: offs) =
      buildAudioDelayed info k off :: mixInputsAux (k + 1) infos offs := rfl

theorem videoInputsAux_cons (tw th : ℤ) (k : ℕ) (info : ClipInfo) (infos : List ClipInfo) :
    videoInputsAux tw th k (info :: infos) =
      buildVideoOne tw th info k :: videoInputsAux tw th (k + 1) infos := rfl

theorem mixInputsAux_length :
    ∀ (infos : List ClipInfo) (offs : List ℚ) (k : ℕ), infos.length = offs.length →
    (mixInputsAux k infos offs).length = infos.length := by
  intro infos
  induction infos with
  | nil => intro offs k _; rfl
  | cons info rest ih =>
    intro offs k h
    cases offs with
    | nil => simp at h
    | cons off offsRest =>
      rw [mixInputsAux_cons, List.length_cons, List.length_cons,
        ih offsRest (k + 1) (by simpa using h)]

theorem audioStreamsForMixing_length (infos : List ClipInfo) (t : ℚ) :
    (audioStreamsForMixing infos t).length = infos.length := by
  unfold audioStreamsForMixing
  exact mixInputsAux_length infos _ 0 (by rw [clipStartTimes_length, List.length_map])

theorem videoInputsAux_length (tw th : ℤ) :
    ∀ (infos : List ClipInfo) (k : ℕ), (videoInputsAux tw th k infos).length = infos.length := by
  intro infos
  induction infos with
  | nil => intro k; rfl
  | cons info rest ih =>
    intro k
    rw [videoInputsAux_cons, List.length_cons, List.length_cons, ih (k + 1)]

theorem mixInputsAux_getD :
    ∀ (infos : List ClipInfo) (offs : List ℚ) (k i : ℕ),
    i < infos.length → i < offs.length →
    (mixInputsAux k infos offs).getD i (AStream.silence 0) =
      buildAudioDelayed (infos.getD i defaultClip) (k + i) (offs.getD i 0) := by
  intro infos
  induction infos with
  | nil => intro offs k i h _; simp at h
  | cons info rest ih =>
    intro offs k i h1 h2
    cases offs with
    | nil => simp at h2
    | cons off offsRest =>
      rw [mixInputsAux_cons]
      cases i with
      | zero => rfl
      | succ j =>
        have h1j := Nat.lt_of_succ_lt_succ h1
        have h2j := Nat.lt_of_succ_lt_succ h2
        rw [List.getD_cons_succ, List.getD_cons_succ, List.getD_cons_succ,
          ih offsRest (k + 1) j h1j h2j]
        have harith : k + 1 + j = k + (j + 1) := by omega
        rw [harith]

theorem videoInputsAux_getD (tw th : ℤ) :
    ∀ (infos : List ClipInfo) (k i : ℕ), i < infos.length →
    (videoInputsAux tw th k infos).getD i (VStream.source 0) =
      buildVideoOne tw th (infos.getD i defaultClip) (k + i) := by
  intro infos
  induction infos with
  | nil => intro k i h; simp at h
  | cons info rest ih =>
    intro k i h
    rw [videoInputsAux_cons]
    cases i with
    | zero => rfl
    | succ j =>
      have hj := Nat.lt_of_succ_lt_succ h
      rw [List.getD_cons_succ, List.getD_cons_succ, ih (k + 1) j hj]
      have harith : k + 1 + j = k + (j + 1) := by omega
      rw [harith]

/-- The stored duration list: `getD` agrees with the clip's duration field. -/
theorem durs_getD (infos : List ClipInfo) (i : ℕ) (h : i < infos.length) :
    (infos.map fun c => c.duration).getD i 0 = (infos.getD i defaultClip).duration := by
  rw [List.getD_eq_getElem _ _ (by simpa using h), List.getD_eq_getElem _ _ h,
    List.getElem_map]

theorem aduration_buildAudioBase (infos : List ClipInfo) (i : ℕ) (h : i < infos.length) :
    aduration (infos.map fun c => c.duration) (buildAudioBase (infos.getD i defaultClip) i) =
      (infos.getD i defaultClip).duration := by
  unfold buildAudioBase
  split
  · show (infos.map fun c => c.duration).getD i 0 = _
    exact durs_getD infos i h
  · rfl

theorem aduration_buildAudioDelayed (durs : List ℚ) (info : ClipInfo) (i : ℕ) (off : ℚ) :
    aduration durs (buildAudioDelayed info i off) =
      ((pyInt (off * 1000) : ℤ) : ℚ) / 1000 + aduration durs (buildAudioBase info i) := by
  unfold buildAudioDelayed
  show ((max (pyInt (off * 1000)) (pyInt (off * 1000)) : ℤ) : ℚ) / 1000 + _ = _
  rw [max_self]

/-- Folding `max` from 0 over a list picks out an element that bounds all
others and is nonnegative. -/
theorem foldr_max_eq (l : List ℚ) (M : ℚ) (hmem : M ∈ l)
    (hub : ∀ x ∈ l, x ≤ M) (h0 : 0 ≤ M) : l.foldr max 0 = M := by
  have hle : ∀ (l2 : List ℚ), (∀ x ∈ l2, x ≤ M) → l2.foldr max 0 ≤ M := by
    intro l2
    induction l2 with
    | nil => intro _; simpa using h0
    | cons a rest ih =>
      intro hub2
      have ha := hub2 a (by simp)
      have hrest := ih fun x hx => hub2 x (by simp [hx])
      simpa using max_le ha hrest
  have hge : ∀ (l2 : List ℚ), M ∈ l2 → M ≤ l2.foldr max 0 := by
    intro l2
    induction l2 with
    | nil => intro hcon; simp at hcon
    | cons a rest ih =>
      intro hmem2
      rcases List.mem_cons.mp hmem2 with hM | hM
      · subst hM
        exact le_max_left _ _
      · exact le_trans (ih hM) (le_max_right _ _)
  exact le_antisymm (hle l hub) (hge l hmem)

/-- The xfade fold ends at the last scheduled offset plus the length of the
last incoming clip. -/
theorem xfadeChain_dur_getD (t : ℚ) (durs : List ℚ) :
    ∀ (ps : List (VStream × ℚ)) (acc : VStream), ps ≠ [] →
    vduration durs (xfadeChain t acc ps) =
      (ps.getD (ps.length - 1) (VStream.source 0, 0)).2 +
        vduration durs (ps.getD (ps.length - 1) (VStream.source 0, 0)).1 := by
  intro ps
  induction ps with
  | nil => intro acc h; exact absurd rfl h
  | cons p rest ih =>
    intro acc _
    obtain ⟨v, off⟩ := p
    cases rest with
    | nil => rfl
    | cons p2 rest2 =>
      have hstep : xfadeChain t acc ((v, off) :: p2 :: rest2) =
          xfadeChain t (VStream.xfade acc v t off) (p2 :: rest2) := rfl
      rw [hstep, ih (VStream.xfade acc v t off) (by simp)]
      simp only [List.length_cons, Nat.add_sub_cancel, List.getD_cons_succ]

theorem zip_getD (l1 : List VStream) (l2 : List ℚ) (i : ℕ)
    (h1 : i < l1.length) (h2 : i < l2.length) :
    (l1.zip l2).getD i (VStream.source 0, 0) = (l1.getD i (VStream.source 0), l2.getD i 0) := by
  have hz : i < (l1.zip l2).length := by
    rw [List.length_zip]
    omega
  rw [List.getD_eq_getElem _ _ hz, List.getD_eq_getElem _ _ h1, List.getD_eq_getElem _ _ h2]
  exact List.getElem_zip

theorem drop_one_getD (l : List ℚ) (i : ℕ) (h : i + 1 < l.length) :
    (l.drop 1).getD i 0 = l.getD (i + 1) 0 := by
  have h1i : 1 + i < l.length := by omega
  have hd : i < (l.drop 1).length := by
    rw [List.length_drop]
    omega
  rw [List.getD_eq_getElem _ _ hd, List.getD_eq_getElem _ _ h]
  have e1 : (l.drop 1)[i] = l[1 + i] := List.getElem_drop l
  have e2 : l[1 + i] = l[i + 1] := by
    congr 1
    omega
  rw [e1, e2]

theorem processedAudio_of_two_le (infos : List ClipInfo) (t : ℚ)
    (h : 2 ≤ infos.length) :
    processedAudio infos t = some (AMix.longest (audioStreamsForMixing infos t)) := by
  have hlen := audioStreamsForMixing_length infos t
  unfold processedAudio
  cases hL : audioStreamsForMixing infos t with
  | nil =>
    rw [hL] at hlen
    simp at hlen
    omega
  | cons a rest =>
    cases rest with
    | nil =>
      rw [hL] at hlen
      simp at hlen
      omega
    | cons b rest2 => rfl

theorem vduration_buildVideoOne (durs : List ℚ) (tw th : ℤ) (info : ClipInfo) (i : ℕ) :
    vduration durs (buildVideoOne tw th info i) = durs.getD i 0 := by
  unfold buildVideoOne
  split <;> rfl

theorem processedVideo_of_two_le (tw th : ℤ) (infos : List ClipInfo) (t : ℚ)
    (h : 2 ≤ infos.length) :
    ∃ v vs, videoInputsAux tw th 0 infos = v :: vs ∧ vs ≠ [] ∧
      processedVideo tw th infos t =
        some (xfadeChain t v
          (vs.zip ((clipStartTimes (infos.map fun c => c.duration) t).drop 1))) := by
  cases infos with
  | nil => simp at h
  | cons i0 tail =>
    cases tail with
    | nil => simp at h
    | cons i1 rest =>
      refine ⟨buildVideoOne tw th i0 0, videoInputsAux tw th 1 (i1 :: rest), rfl, ?_, rfl⟩
      rw [videoInputsAux_cons]
      simp

/-- The processed video track always ends at the last scheduled offset plus
the last clip's duration (for one clip the offset is 0). -/
theorem videoTrackDuration_eq (tw th : ℤ) (infos : List ClipInfo) (t : ℚ)
    (h : 1 ≤ infos.length) :
    videoTrackDuration tw th infos t =
      (clipStartTimes (infos.map fun c => c.duration) t).getD (infos.length - 1) 0 +
        (infos.map fun c => c.duration).getD (infos.length - 1) 0 := by
  rcases Nat.lt_or_ge infos.length 2 with h2 | h2
  · -- exactly one clip
    have h1 : infos.length = 1 := by omega
    obtain ⟨i0, rfl⟩ := List.length_eq_one.mp h1
    have hv : processedVideo tw th [i0] t = some (buildVideoOne tw th i0 0) := rfl
    have hd : videoTrackDuration tw th [i0] t =
        vduration ([i0].map fun c => c.duration) (buildVideoOne tw th i0 0) := by
      unfold videoTrackDuration
      rw [hv]
    rw [hd, vduration_buildVideoOne]
    have hhead : (clipStartTimes ([i0].map fun c => c.duration) t).getD 0 0 = 0 :=
      scheduleFrom_head t 0 i0.duration []
    rw [show ([i0] : List ClipInfo).length - 1 = 0 from rfl, hhead, zero_add]
  · -- two or more clips
    obtain ⟨m, hm⟩ : ∃ m, infos.length = m + 2 := ⟨infos.length - 2, by omega⟩
    obtain ⟨v, vs, hv, hvs, hpv⟩ := processedVideo_of_two_le tw th infos t h2
    set durs := infos.map fun c => c.duration with hdurs
    set offs := clipStartTimes durs t with hoffs
    have hdurslen : durs.length = m + 2 := by
      rw [hdurs, List.length_map, hm]
    have hoffslen : offs.length = m + 2 := by
      rw [hoffs, clipStartTimes_length, hdurslen]
    have hvlen : (v :: vs).length = m + 2 := by
      rw [← hv, videoInputsAux_length, hm]
    have hvslen : vs.length = m + 1 := by
      rw [List.length_cons] at hvlen
      omega
    have hdroplen : (offs.drop 1).length = m + 1 := by
      rw [List.length_drop, hoffslen]
      omega
    have hpslen : (vs.zip (offs.drop 1)).length = m + 1 := by
      rw [List.length_zip, hvslen, hdroplen, min_self]
    have hpsne : vs.zip (offs.drop 1) ≠ [] := by
      intro hcon
      rw [hcon] at hpslen
      simp at hpslen
    have hd : videoTrackDuration tw th infos t =
        vduration durs (xfadeChain t v (vs.zip (offs.drop 1))) := by
      unfold videoTrackDuration
      rw [hpv]
    rw [hm, hd, xfadeChain_dur_getD t durs _ v hpsne, hpslen]
    have hsub1 : m + 1 - 1 = m := by omega
    have hsub2 : m + 2 - 1 = m + 1 := by omega
    rw [hsub1, hsub2, zip_getD vs (offs.drop 1) m (by omega) (by omega)]
    have hvcomp : vs.getD m (VStream.source 0) =
        buildVideoOne tw th (infos.getD (m + 1) defaultClip) (m + 1) := by
      have h3 : m + 1 < infos.length := by omega
      have hgd := videoInputsAux_getD tw th infos 0 (m + 1) h3
      rw [hv, Nat.zero_add] at hgd
      have hcs : (v :: vs).getD (m + 1) (VStream.source 0) = vs.getD m (VStream.source 0) :=
        List.getD_cons_succ
      rw [← hcs, hgd]
    have hocomp : (offs.drop 1).getD m 0 = offs.getD (m + 1) 0 :=
      drop_one_getD offs m (by omega)
    rw [hvcomp, hocomp]
    show offs.getD (m + 1) 0 +
        vduration durs (buildVideoOne tw th (infos.getD (m + 1) defaultClip) (m + 1)) =
      offs.getD (m + 1) 0 + durs.getD (m + 1) 0
    rw [vduration_buildVideoOne]

theorem clipStartTimes_head (durs : List ℚ) (t : ℚ) (h : durs ≠ []) :
    (clipStartTimes durs t).getD 0 0 = 0 := by
  obtain ⟨d, rest, rfl⟩ := List.exists_cons_of_ne_nil h
  exact scheduleFrom_head t 0 d rest

theorem wholeMs_intCast (k : ℤ) : wholeMs ((k : ℚ)) :=
  (wholeMs_iff _).mpr ⟨k * 1000, by push_cast; field_simp⟩

/-- Under the no-clamp hypotheses (every clip outlasts the transition by at
least the 0.01 s floor, and every duration and the transition are whole
milliseconds), the `amix duration=longest` output length is the last scheduled
offset plus the last clip's duration. -/
theorem audioMixDuration_eq (infos : List ClipInfo) (t : ℚ)
    (h2 : 2 ≤ infos.length) (ht : 0 ≤ t) (hwt : wholeMs t)
    (hall : ∀ c ∈ infos, t + 1/100 ≤ c.duration ∧ wholeMs c.duration) :
    audioMixDuration infos t =
      (clipStartTimes (infos.map fun c => c.duration) t).getD (infos.length - 1) 0 +
        (infos.map fun c => c.duration).getD (infos.length - 1) 0 := by
  set durs := infos.map fun c => c.duration with hdurs
  set offs := clipStartTimes durs t with hoffs
  set n := infos.length with hn
  have hdurslen : durs.length = n := by rw [hdurs, List.length_map]
  have hoffslen : offs.length = n := by rw [hoffs, clipStartTimes_length, hdurslen]
  have hne : durs ≠ [] := by
    intro hcon
    rw [hcon] at hdurslen
    simp at hdurslen
    omega
  -- index form of the per-clip hypotheses
  have hallD : ∀ i, i < n → t + 1/100 ≤ durs.getD i 0 ∧ wholeMs (durs.getD i 0) := by
    intro i hi
    have hmem : infos.getD i defaultClip ∈ infos := by
      rw [List.getD_eq_getElem _ _ hi]
      exact List.getElem_mem hi
    have hc := hall _ hmem
    rw [hdurs, durs_getD infos i hi]
    exact hc
  -- the recurrence without the clamp
  have hrec : ∀ i, i + 1 < n → offs.getD (i + 1) 0 = offs.getD i 0 + (durs.getD i 0 - t) := by
    intro i hi
    have hstep := scheduleFrom_getD_succ t durs 0 i (by rw [hdurslen]; exact hi)
    have hge : 1/100 ≤ durs.getD i 0 - t := by
      have := (hallD i (by omega)).1
      linarith
    rw [hoffs]
    unfold clipStartTimes
    rw [hstep, max_eq_right hge]
  -- all offsets are whole milliseconds
  have hwoffs : ∀ i, i < n → wholeMs (offs.getD i 0) := by
    intro i
    induction i with
    | zero =>
      intro _
      rw [hoffs, clipStartTimes_head durs t hne]
      exact wholeMs_zero
    | succ j ih =>
      intro hj
      have hjn : j < n := by omega
      rw [hrec j hj]
      exact wholeMs_add (ih hjn) (wholeMs_sub (hallD j hjn).2 hwt)
  -- each mixing stream's length is its clip's end on the master timeline
  have hstream : ∀ i, i < n →
      aduration durs ((audioStreamsForMixing infos t).getD i (AStream.silence 0)) =
        offs.getD i 0 + durs.getD i 0 := by
    intro i hi
    have hiI : i < infos.length := by omega
    have hiO : i < offs.length := by omega
    have hunfold : audioStreamsForMixing infos t = mixInputsAux 0 infos offs := by
      unfold audioStreamsForMixing
      rw [← hdurs, ← hoffs]
    rw [hunfold, mixInputsAux_getD infos offs 0 i hiI hiO, Nat.zero_add,
      aduration_buildAudioDelayed, pyInt_wholeMs_div _ (hwoffs i hi)]
    have hbase := aduration_buildAudioBase infos i hiI
    rw [← hdurs] at hbase
    rw [hbase, hdurs, durs_getD infos i hiI]
  -- clip ends are non-decreasing along the timeline
  have hmono : ∀ i j, i ≤ j → j < n →
      offs.getD i 0 + durs.getD i 0 ≤ offs.getD j 0 + durs.getD j 0 := by
    intro i j hij hj
    induction j, hij using Nat.le_induction with
    | base => exact le_refl _
    | succ k hk ih =>
      have hkn : k < n := by omega
      have hd1 := (hallD (k + 1) hj).1
      have hstep := hrec k hj
      have ihh := ih hkn
      rw [hstep]
      linarith
  have hlen_mix : (audioStreamsForMixing infos t).length = n := by
    rw [audioStreamsForMixing_length]
  have hgetD : ∀ j (hj : j < ((audioStreamsForMixing infos t).map (aduration durs)).length),
      ((audioStreamsForMixing infos t).map (aduration durs))[j] =
        offs.getD j 0 + durs.getD j 0 := by
    intro j hj
    have hjm : j < (audioStreamsForMixing infos t).length := by
      rw [List.length_map] at hj
      exact hj
    rw [List.getElem_map, ← List.getD_eq_getElem _ (AStream.silence 0) hjm]
    exact hstream j (by omega)
  have hM0 : 0 ≤ offs.getD (n - 1) 0 + durs.getD (n - 1) 0 := by
    have hnn : 0 ≤ offs.getD (n - 1) 0 := by
      rw [hoffs]
      exact clipStartTimes_nonneg durs t (n - 1) (by omega)
    have hd2 := (hallD (n - 1) (by omega)).1
    linarith
  have hpa := processedAudio_of_two_le infos t h2
  have hfinal : audioMixDuration infos t =
      ((audioStreamsForMixing infos t).map (aduration durs)).foldr max 0 := by
    unfold audioMixDuration
    rw [hpa]
    show amixDuration (infos.map fun c => c.duration) (AMix.longest (audioStreamsForMixing infos t)) = _
    rw [← hdurs]
    rfl
  rw [hfinal]
  refine foldr_max_eq _ _ ?_ ?_ hM0
  · -- the last clip's end is a member of the mapped list
    have hidx : n - 1 < ((audioStreamsForMixing infos t).map (aduration durs)).length := by
      rw [List.length_map, hlen_mix]
      omega
    have he := hgetD (n - 1) hidx
    rw [← he]
    exact List.getElem_mem hidx
  · -- and it bounds every element
    intro x hx
    obtain ⟨j, hj, hje⟩ := List.getElem_of_mem hx
    rw [← hje, hgetD j hj]
    have hjn : j < n := by
      rw [List.length_map, hlen_mix] at hj
      exact hj
    exact hmono j (n - 1) (by omega) (by omega)

/-- C2 amended: with two or more clips the delayed streams are indeed summed
by `amix` with the preserve-full-length (`longest`) policy, and — provided
every clip outlasts the transition by at least the 0.01 s floor and all
durations and the transition are whole milliseconds, so the millisecond
truncation of `adelay` is exact — the mixed audio length equals the video
track length and the scheduler's total duration. -/
theorem C2_audio_mix_amended (tw th : ℤ) (infos : List ClipInfo) (t : ℚ)
    (h2 : 2 ≤ infos.length) (ht : 0 ≤ t) (hwt : wholeMs t)
    (hall : ∀ c ∈ infos, t + 1/100 ≤ c.duration ∧ wholeMs c.duration) :
    processedAudio infos t = some (AMix.longest (audioStreamsForMixing infos t)) ∧
    audioMixDuration infos t = videoTrackDuration tw th infos t ∧
    audioMixDuration infos t = finalDurationEstimate (infos.map fun c => c.duration) t := by
  refine ⟨processedAudio_of_two_le infos t h2, ?_, ?_⟩
  · rw [audioMixDuration_eq infos t h2 ht hwt hall,
      videoTrackDuration_eq tw th infos t (by omega)]
  · rw [audioMixDuration_eq infos t h2 ht hwt hall]
    have hdurslen : (infos.map fun c => c.duration).length = infos.length :=
      List.length_map _ _
    have hne : (infos.map fun c => c.duration) ≠ [] := by
      intro hcon
      rw [hcon] at hdurslen
      simp at hdurslen
      omega
    have hs := scheduleFrom_snd_eq_last t (infos.map fun c => c.duration) 0 hne
    have hi : infos.length - 1 < infos.length := by omega
    have hlast : 1/100 ≤ (infos.map fun c => c.duration).getD (infos.length - 1) 0 := by
      have hmem : infos.getD (infos.length - 1) defaultClip ∈ infos := by
        rw [List.getD_eq_getElem _ _ hi]
        exact List.getElem_mem hi
      have hcl := (hall _ hmem).1
      rw [durs_getD infos _ hi]
      linarith
    unfold finalDurationEstimate clipStartTimes
    rw [hdurslen] at hs
    rw [hs, max_eq_right hlast]

/-- Witness for the amended C2: two 6-second clips (the second silent) with a
1-second transition. -/
theorem C2_audio_mix_amended_witness :
    processedAudio [⟨6, 1280, 720, true, false⟩, ⟨6, 1280, 720, false, false⟩] 1 =
      some (AMix.longest (audioStreamsForMixing
        [⟨6, 1280, 720, true, false⟩, ⟨6, 1280, 720, false, false⟩] 1)) ∧
    audioMixDuration [⟨6, 1280, 720, true, false⟩, ⟨6, 1280, 720, false, false⟩] 1 =
      videoTrackDuration 1280 720
        [⟨6, 1280, 720, true, false⟩, ⟨6, 1280, 720, false, false⟩] 1 ∧
    audioMixDuration [⟨6, 1280, 720, true, false⟩, ⟨6, 1280, 720, false, false⟩] 1 =
      finalDurationEstimate
        (([⟨6, 1280, 720, true, false⟩, ⟨6, 1280, 720, false, false⟩] :
          List ClipInfo).map fun c => c.duration) 1 :=
  C2_audio_mix_amended 1280 720 _ 1 (by norm_num) (by norm_num)
    (by simpa using wholeMs_intCast 1)
    (by
      intro c hc
      simp only [List.mem_cons, List.not_mem_nil, or_false] at hc
      rcases hc with rfl | rfl
      · exact ⟨by norm_num, by simpa using wholeMs_intCast 6⟩
      · exact ⟨by norm_num, by simpa using wholeMs_intCast 6⟩)

/-- C2 fails as stated: with clips of 2.0005 s and 2 s and a 0.5 s transition,
the second clip's delay `int(1500.5) = 1500 ms` truncates half a millisecond,
so the mixed audio ends at 3.5 s while the video track ends at 3.5005 s. -/
theorem C2_counterexample :
    audioMixDuration
        [⟨4001/2000, 1280, 720, true, false⟩, ⟨2, 1280, 720, true, false⟩] (1/2) ≠
      videoTrackDuration 1280 720
        [⟨4001/2000, 1280, 720, true, false⟩, ⟨2, 1280, 720, true, false⟩] (1/2) := by
  have hmap : (([⟨4001/2000, 1280, 720, true, false⟩, ⟨2, 1280, 720, true, false⟩] :
      List ClipInfo).map fun c => c.duration) = [(4001:ℚ)/2000, 2] := rfl
  have hoffs2 : clipStartTimes [(4001:ℚ)/2000, 2] (1/2) = [0, 3001/2000] := by
    unfold clipStartTimes
    rw [scheduleFrom_fst_cons_cons,
      show (0 + max ((1:ℚ)/100) (4001/2000 - 1/2)) = 3001/2000 by
        rw [max_eq_right (by norm_num : (1:ℚ)/100 ≤ 4001/2000 - 1/2)]
        norm_num,
      scheduleFrom_single]
  have hv := videoTrackDuration_eq 1280 720
    [⟨4001/2000, 1280, 720, true, false⟩, ⟨2, 1280, 720, true, false⟩] (1/2) (by norm_num)
  rw [hmap, hoffs2] at hv
  have hv2 : videoTrackDuration 1280 720
      [⟨4001/2000, 1280, 720, true, false⟩, ⟨2, 1280, 720, true, false⟩] (1/2) =
        7001/2000 := by
    rw [hv]
    norm_num
  have hmix : audioStreamsForMixing
      [⟨4001/2000, 1280, 720, true, false⟩, ⟨2, 1280, 720, true, false⟩] (1/2) =
        [buildAudioDelayed ⟨4001/2000, 1280, 720, true, false⟩ 0 0,
         buildAudioDelayed ⟨2, 1280, 720, true, false⟩ 1 (3001/2000)] := by
    unfold audioStreamsForMixing
    rw [hmap, hoffs2]
    rfl
  have hpa := processedAudio_of_two_le
    [⟨4001/2000, 1280, 720, true, false⟩, ⟨2, 1280, 720, true, false⟩] (1/2) (by norm_num)
  have haud : audioMixDuration
      [⟨4001/2000, 1280, 720, true, false⟩, ⟨2, 1280, 720, true, false⟩] (1/2) =
        max (aduration [(4001:ℚ)/2000, 2]
            (buildAudioDelayed ⟨4001/2000, 1280, 720, true, false⟩ 0 0))
          (max (aduration [(4001:ℚ)/2000, 2]
            (buildAudioDelayed ⟨2, 1280, 720, true, false⟩ 1 (3001/2000))) 0) := by
    unfold audioMixDuration
    rw [hpa]
    show amixDuration (([⟨4001/2000, 1280, 720, true, false⟩,
        ⟨2, 1280, 720, true, false⟩] : List ClipInfo).map fun c => c.duration)
      (AMix.longest (audioStreamsForMixing
        [⟨4001/2000, 1280, 720, true, false⟩, ⟨2, 1280, 720, true, false⟩] (1/2))) = _
    rw [hmix, hmap]
    rfl
  have hs0 : aduration [(4001:ℚ)/2000, 2]
      (buildAudioDelayed ⟨4001/2000, 1280, 720, true, false⟩ 0 0) = 4001/2000 := by
    rw [aduration_buildAudioDelayed,
      show ((0:ℚ) * 1000) = ((0:ℤ):ℚ) by norm_num, pyInt_intCast]
    show ((0:ℤ):ℚ)/1000 + ([(4001:ℚ)/2000, 2].getD 0 0) = 4001/2000
    norm_num
  have hs1 : aduration [(4001:ℚ)/2000, 2]
      (buildAudioDelayed ⟨2, 1280, 720, true, false⟩ 1 (3001/2000)) = 7/2 := by
    rw [aduration_buildAudioDelayed]
    have hpy : pyInt ((3001:ℚ)/2000 * 1000) = 1500 := by
      rw [show ((3001:ℚ)/2000 * 1000) = 3001/2 by norm_num]
      unfold pyInt
      rw [if_pos (by norm_num : (0:ℚ) ≤ 3001/2), Int.floor_eq_iff]
      constructor
      · norm_num
      · norm_num
    rw [hpy]
    show ((1500:ℤ):ℚ)/1000 + ([(4001:ℚ)/2000, 2].getD 1 0) = 7/2
    norm_num
  rw [haud, hs0, hs1, hv2, max_eq_left (by norm_num : (0:ℚ) ≤ 7/2),
    max_eq_right (by norm_num : (4001:ℚ)/2000 ≤ 7/2)]
  norm_num

/-- C10: the delay applied to clip `i` is `int(offset * 1000)` milliseconds,
identical on both stereo channels; in seconds it never exceeds the scheduled
offset and falls short of it by less than one millisecond. -/
theorem C10_adelay_truncation (infos : List ClipInfo) (t : ℚ) (i : ℕ)
    (h : i < infos.length) :
    (audioStreamsForMixing infos t).getD i (AStream.silence 0) =
      AStream.adelay
        (pyInt ((clipStartTimes (infos.map fun c => c.duration) t).getD i 0 * 1000))
        (pyInt ((clipStartTimes (infos.map fun c => c.duration) t).getD i 0 * 1000))
        (buildAudioBase (infos.getD i defaultClip) i) ∧
    ((pyInt ((clipStartTimes (infos.map fun c => c.duration) t).getD i 0 * 1000) : ℤ) : ℚ)
        / 1000 ≤
      (clipStartTimes (infos.map fun c => c.duration) t).getD i 0 ∧
    (clipStartTimes (infos.map fun c => c.duration) t).getD i 0 -
        ((pyInt ((clipStartTimes (infos.map fun c => c.duration) t).getD i 0 * 1000) : ℤ) : ℚ)
          / 1000 <
      1/1000 := by
  have hdl : i < (infos.map fun c => c.duration).length := by
    rw [List.length_map]
    exact h
  have hoffsl : i < (clipStartTimes (infos.map fun c => c.duration) t).length := by
    rw [clipStartTimes_length]
    exact hdl
  have hnn : 0 ≤ (clipStartTimes (infos.map fun c => c.duration) t).getD i 0 :=
    clipStartTimes_nonneg _ t i hdl
  have hb := pyInt_nonneg_bounds
    ((clipStartTimes (infos.map fun c => c.duration) t).getD i 0 * 1000)
    (mul_nonneg hnn (by norm_num))
  refine ⟨?_, ?_, ?_⟩
  · unfold audioStreamsForMixing
    rw [mixInputsAux_getD infos _ 0 i h hoffsl, Nat.zero_add]
    rfl
  · rw [div_le_iff₀ (by norm_num : (0:ℚ) < 1000)]
    exact hb.1
  · rw [sub_lt_iff_lt_add, show (1:ℚ)/1000 +
      ((pyInt ((clipStartTimes (infos.map fun c => c.duration) t).getD i 0 * 1000) : ℤ) : ℚ)
        / 1000 =
      (((pyInt ((clipStartTimes (infos.map fun c => c.duration) t).getD i 0 * 1000) : ℤ) : ℚ)
        + 1) / 1000 by ring,
      lt_div_iff₀ (by norm_num : (0:ℚ) < 1000)]
    linarith [hb.2]

/-- Witness for C10: a single 5-second silent clip scheduled at offset 0. -/
theorem C10_adelay_truncation_witness :
    (audioStreamsForMixing [⟨5, 640, 480, false, false⟩] (3/5)).getD 0 (AStream.silence 0) =
      AStream.adelay
        (pyInt ((clipStartTimes (([⟨5, 640, 480, false, false⟩] : List ClipInfo).map
          fun c => c.duration) (3/5)).getD 0 0 * 1000))
        (pyInt ((clipStartTimes (([⟨5, 640, 480, false, false⟩] : List ClipInfo).map
          fun c => c.duration) (3/5)).getD 0 0 * 1000))
        (buildAudioBase (([⟨5, 640, 480, false, false⟩] : List ClipInfo).getD 0 defaultClip) 0) ∧
    ((pyInt ((clipStartTimes (([⟨5, 640, 480, false, false⟩] : List ClipInfo).map
        fun c => c.duration) (3/5)).getD 0 0 * 1000) : ℤ) : ℚ) / 1000 ≤
      (clipStartTimes (([⟨5, 640, 480, false, false⟩] : List ClipInfo).map
        fun c => c.duration) (3/5)).getD 0 0 ∧
    (clipStartTimes (([⟨5, 640, 480, false, false⟩] : List ClipInfo).map
        fun c => c.duration) (3/5)).getD 0 0 -
      ((pyInt ((clipStartTimes (([⟨5, 640, 480, false, false⟩] : List ClipInfo).map
        fun c => c.duration) (3/5)).getD 0 0 * 1000) : ℤ) : ℚ) / 1000 < 1/1000 :=
  C10_adelay_truncation [⟨5, 640, 480, false, false⟩] (3/5) 0 (by norm_num)

theorem hasXfade_buildVideoOne (tw th : ℤ) (info : ClipInfo) (i : ℕ) :
    VStream.hasXfade (buildVideoOne tw th info i) = false := by
  unfold buildVideoOne
  split <;> rfl

/-- C9: with exactly one valid clip the timeline is `[0]`, the total duration
is that clip's duration, the processed video is the clip's own filter chain
with no crossfade, and the audio is the single delayed stream with a 0 ms
delay — no `amix` node is built. -/
theorem C9_single_clip (tw th : ℤ) (infos : List ClipInfo) (t : ℚ)
    (h1 : infos.length = 1) (hd : 1/100 ≤ (infos.getD 0 defaultClip).duration) :
    clipStartTimes (infos.map fun c => c.duration) t = [0] ∧
    finalDurationEstimate (infos.map fun c => c.duration) t =
      (infos.getD 0 defaultClip).duration ∧
    processedVideo tw th infos t =
      some (buildVideoOne tw th (infos.getD 0 defaultClip) 0) ∧
    VStream.hasXfade (buildVideoOne tw th (infos.getD 0 defaultClip) 0) = false ∧
    processedAudio infos t =
      some (AMix.single (AStream.adelay 0 0
        (buildAudioBase (infos.getD 0 defaultClip) 0))) := by
  obtain ⟨c, rfl⟩ := List.length_eq_one.mp h1
  have hd2 : 1/100 ≤ c.duration := hd
  refine ⟨rfl, ?_, rfl, hasXfade_buildVideoOne tw th _ 0, ?_⟩
  · show (0 : ℚ) + max (1/100) c.duration = c.duration
    rw [max_eq_right hd2, zero_add]
  · have hzero : pyInt ((0:ℚ) * 1000) = 0 := by
      rw [show ((0:ℚ) * 1000) = ((0:ℤ):ℚ) by norm_num, pyInt_intCast]
    have hmixl : audioStreamsForMixing [c] t =
        [AStream.adelay (pyInt ((0:ℚ) * 1000)) (pyInt ((0:ℚ) * 1000))
          (buildAudioBase c 0)] := rfl
    have hpa : processedAudio [c] t =
        some (AMix.single (AStream.adelay (pyInt ((0:ℚ) * 1000)) (pyInt ((0:ℚ) * 1000))
          (buildAudioBase c 0))) := by
      unfold processedAudio
      rw [hmixl]
    rw [hpa, hzero]
    rfl

/-- Witness for C9: a lone 4-second clip with audio. -/
theorem C9_single_clip_witness :
    clipStartTimes (([⟨4, 1280, 720, true, false⟩] : List ClipInfo).map
      fun c => c.duration) (3/5) = [0] ∧
    finalDurationEstimate (([⟨4, 1280, 720, true, false⟩] : List ClipInfo).map
      fun c => c.duration) (3/5) =
      (([⟨4, 1280, 720, true, false⟩] : List ClipInfo).getD 0 defaultClip).duration ∧
    processedVideo 1280 720 [⟨4, 1280, 720, true, false⟩] (3/5) =
      some (buildVideoOne 1280 720
        (([⟨4, 1280, 720, true, false⟩] : List ClipInfo).getD 0 defaultClip) 0) ∧
    VStream.hasXfade (buildVideoOne 1280 720
      (([⟨4, 1280, 720, true, false⟩] : List ClipInfo).getD 0 defaultClip) 0) = false ∧
    processedAudio [⟨4, 1280, 720, true, false⟩] (3/5) =
      some (AMix.single (AStream.adelay 0 0
        (buildAudioBase (([⟨4, 1280, 720, true, false⟩] : List ClipInfo).getD 0
          defaultClip) 0))) :=
  C9_single_clip 1280 720 [⟨4, 1280, 720, true, false⟩] (3/5) rfl (by norm_num)

/-! ### Media prober

Embedding of `get_video_info` (lines 9-63).  The filesystem and the three
`ffmpeg.probe` calls are an explicit environment; `probe = none` models an
`ffmpeg.Error` or any other exception raised while probing, which the function
catches and absorbs. -/

/-- A probed stream as the code reads it: the `duration` field when present
and numeric, and the `.get('width'/'height', 0)` results. -/
structure StreamInfo where
  duration : Option ℚ
  width : ℤ
  height : ℤ
deriving DecidableEq

/-- The data the three probe calls return. -/
structure ProbeData where
  videoStream : Option StreamInfo
  audioStream : Option StreamInfo
  formatDuration : Option ℚ
deriving DecidableEq

/-- Environment of one `get_video_info` call. -/
structure FileEnv where
  pathOk : Bool
  fileExists : Bool
  fileSize : ℕ
  probe : Option ProbeData
deriving DecidableEq

/-- The unusable-file sentinel `(None, None, None, False)`. -/
def sentinel : Option ℚ × Option ℤ × Option ℤ × Bool := (none, none, none, false)

def pickDurationFmt (fmt : Option ℚ) : ℚ :=
  match fmt with
  | some d => if 0 < d then d else 0
  | none => 0

def pickDurationAud (a : Option StreamInfo) (fmt : Option ℚ) : ℚ :=
  match a with
  | some s =>
    match s.duration with
    | some d => if 0 < d then d else pickDurationFmt fmt
    | none => pickDurationFmt fmt
  | none => pickDurationFmt fmt

/-- The duration-selection chain of lines 38-44: the first strictly positive
duration among video stream, audio stream, container format; else 0. -/
def pickDuration (v a : Option StreamInfo) (fmt : Option ℚ) : ℚ :=
  match v with
  | some s =>
    match s.duration with
    | some d => if 0 < d then d else pickDurationAud a fmt
    | none => pickDurationAud a fmt
  | none => pickDurationAud a fmt

/-- Lines 46-49: dimensions from the video stream, nulled when non-positive. -/
def pickDims (v : Option StreamInfo) : Option ℤ × Option ℤ :=
  match v with
  | some s =>
    if s.width ≤ 0 ∨ s.height ≤ 0 then (none, none) else (some s.width, some s.height)
  | none => (none, none)

/-- The tuple built from a successful probe (lines 33-55). -/
def probeResult (p : ProbeData) : Option ℚ × Option ℤ × Option ℤ × Bool :=
  if pickDuration p.videoStream p.audioStream p.formatDuration ≤ 1/100 then sentinel
  else (some (pickDuration p.videoStream p.audioStream p.formatDuration),
    (pickDims p.videoStream).1, (pickDims p.videoStream).2, p.audioStream.isSome)

/-- `get_video_info`: sentinel for a missing/empty path, an undersized file, a
probe error, or a selected duration at most 0.01 s; otherwise the probed
tuple. -/
def get_video_info (env : FileEnv) : Option ℚ × Option ℤ × Option ℤ × Bool :=
  if !env.pathOk || !env.fileExists then sentinel
  else if env.fileSize < 100 then sentinel
  else
    match env.probe with
    | none => sentinel
    | some p => probeResult p

/-- C7: the prober returns the probed tuple or the sentinel, never raising: a
missing file, an undersized file, a probe error, and a non-positive selected
duration all yield the sentinel, and any non-sentinel result carries a
strictly positive duration. -/
theorem C7_prober_contract (env : FileEnv) :
    (env.fileExists = false → get_video_info env = sentinel) ∧
    (env.fileSize < 100 → get_video_info env = sentinel) ∧
    (env.probe = none → get_video_info env = sentinel) ∧
    (∀ p, env.probe = some p →
      pickDuration p.videoStream p.audioStream p.formatDuration ≤ 0 →
      get_video_info env = sentinel) ∧
    (get_video_info env = sentinel ∨
      ∃ d w h a, get_video_info env = (some d, w, h, a) ∧ 0 < d) := by
  by_cases h1 : (!env.pathOk || !env.fileExists) = true
  · have hs : get_video_info env = sentinel := by
      unfold get_video_info
      rw [if_pos h1]
    exact ⟨fun _ => hs, fun _ => hs, fun _ => hs, fun _ _ _ => hs, Or.inl hs⟩
  · have hpe : env.pathOk = true ∧ env.fileExists = true := by
      rcases Bool.eq_false_or_eq_true env.pathOk with ha | ha <;>
        rcases Bool.eq_false_or_eq_true env.fileExists with hb | hb <;>
        simp [ha, hb] at h1 ⊢
    by_cases h2 : env.fileSize < 100
    · have hs : get_video_info env = sentinel := by
        unfold get_video_info
        rw [if_neg h1, if_pos h2]
      exact ⟨fun _ => hs, fun _ => hs, fun _ => hs, fun _ _ _ => hs, Or.inl hs⟩
    · cases hp : env.probe with
      | none =>
        have hs : get_video_info env = sentinel := by
          unfold get_video_info
          rw [if_neg h1, if_neg h2, hp]
        exact ⟨fun _ => hs, fun _ => hs, fun _ => hs, fun _ _ _ => hs, Or.inl hs⟩
      | some p =>
        have hred : get_video_info env = probeResult p := by
          unfold get_video_info
          rw [if_neg h1, if_neg h2, hp]
        by_cases h3 : pickDuration p.videoStream p.audioStream p.formatDuration ≤ 1/100
        · have hs : get_video_info env = sentinel := by
            rw [hred]
            unfold probeResult
            rw [if_pos h3]
          exact ⟨fun _ => hs, fun _ => hs, fun _ => hs, fun _ _ _ => hs, Or.inl hs⟩
        · have ht : get_video_info env =
              (some (pickDuration p.videoStream p.audioStream p.formatDuration),
               (pickDims p.videoStream).1, (pickDims p.videoStream).2,
               p.audioStream.isSome) := by
            rw [hred]
            unfold probeResult
            rw [if_neg h3]
          refine ⟨?_, ?_, ?_, ?_,
            Or.inr ⟨_, _, _, _, ht, by push_neg at h3; linarith⟩⟩
          · intro hcon
            rw [hpe.2] at hcon
            cases hcon
          · intro hcon
            exact absurd hcon h2
          · intro hcon
            cases hcon
          · intro q hq hd
            have hq2 : p = q := by
              injection hq
            exfalso
            push_neg at h3
            rw [hq2] at h3
            linarith

/-- Witness for C7 at concrete environments: a missing file, an undersized
file, a probe error, an all-zero probe, and a healthy probe. -/
theorem C7_prober_contract_witness :
    get_video_info ⟨true, false, 5000, none⟩ = sentinel ∧
    get_video_info ⟨true, true, 50, some ⟨none, none, none⟩⟩ = sentinel ∧
    get_video_info ⟨true, true, 5000, none⟩ = sentinel ∧
    get_video_info ⟨true, true, 5000, some ⟨some ⟨some 0, 640, 480⟩, none, none⟩⟩ =
      sentinel ∧
    (get_video_info ⟨true, true, 5000, some ⟨some ⟨some 5, 640, 480⟩,
        some ⟨some 5, 640, 480⟩, none⟩⟩ = sentinel ∨
      ∃ d w h a, get_video_info ⟨true, true, 5000, some ⟨some ⟨some 5, 640, 480⟩,
        some ⟨some 5, 640, 480⟩, none⟩⟩ = (some d, w, h, a) ∧ 0 < d) :=
  ⟨(C7_prober_contract _).1 rfl,
   (C7_prober_contract _).2.1 (by norm_num),
   (C7_prober_contract _).2.2.1 rfl,
   (C7_prober_contract _).2.2.2.1 _ rfl (by norm_num [pickDuration, pickDurationAud,
     pickDurationFmt]),
   (C7_prober_contract _).2.2.2.2⟩

/-! ### Input pre-processing loop (lines 107-207)

Each input path's fate is decided by its environment: unresolvable, an image
(with the wrapper-conversion run, the wrapper file's existence, and the
wrapper's probe environment), or a video (with its probe environment). -/

inductive ClipEnv where
  /-- A falsy path or one that does not exist after resolution (line 122). -/
  | missing
  /-- An image input: whether the ffmpeg image-to-video run raised no
  exception, whether the wrapper file exists afterwards, and the probe
  environment of the wrapper. -/
  | image (convertOk : Bool) (tempExists : Bool) (tempProbe : FileEnv)
  /-- A video input with its probe environment. -/
  | video (probe : FileEnv)
deriving DecidableEq

/-- The loop state: `inputs_info`, the number of tracked `temp_files`, and the
`final_video_width/height` / `first_video_dims_found` trio. -/
structure PreState where
  infos : List ClipInfo
  tempCount : ℕ
  finalW : ℤ
  finalH : ℤ
  dimsFound : Bool
deriving DecidableEq

/-- The `clip_width/clip_height` fallback of lines 185-186. -/
def dimOr (tw : ℤ) (w : Option ℤ) : ℤ :=
  match w with
  | some v => if 0 < v then v else tw
  | none => tw

/-- One iteration of the pre-processing loop. -/
def stepClip (tw th : ℤ) (dcd : ℚ) (st : PreState) (c : ClipEnv) : PreState :=
  match c with
  | ClipEnv.missing => st
  | ClipEnv.image convertOk tempExists tempProbe =>
    if convertOk then
      if tempExists then
        match (get_video_info tempProbe).1 with
        | some td =>
          if 0 < td then
            { infos := st.infos ++ [⟨td, tw, th, false, true⟩],
              tempCount := st.tempCount + 1,
              finalW := if st.dimsFound then st.finalW else tw,
              finalH := if st.dimsFound then st.finalH else th,
              dimsFound := true }
          else
            { st with
              infos := st.infos ++ [⟨dcd, tw, th, false, true⟩],
              tempCount := st.tempCount + 1 }
        | none =>
          { st with
            infos := st.infos ++ [⟨dcd, tw, th, false, true⟩],
            tempCount := st.tempCount + 1 }
      else st
    else st
  | ClipEnv.video probe =>
    match get_video_info probe with
    | (some d, w, h, a) =>
      if 0 < d then
        { infos := st.infos ++ [⟨d, dimOr tw w, dimOr th h, a, false⟩],
          tempCount := st.tempCount,
          finalW := if !st.dimsFound ∧ dimOr tw w ≠ 0 ∧ dimOr th h ≠ 0
            then dimOr tw w else st.finalW,
          finalH := if !st.dimsFound ∧ dimOr tw w ≠ 0 ∧ dimOr th h ≠ 0
            then dimOr th h else st.finalH,
          dimsFound := if !st.dimsFound ∧ dimOr tw w ≠ 0 ∧ dimOr th h ≠ 0
            then true else st.dimsFound }
      else st
    | (none, _, _, _) => st

/-- The whole pre-processing loop: `final_video_width/height` start at the
configured target and `first_video_dims_found` at false. -/
def preprocess (tw th : ℤ) (dcd : ℚ) (clips : List ClipEnv) : PreState :=
  clips.foldl (stepClip tw th dcd) ⟨[], 0, tw, th, false⟩

/-- Whether an optional probed duration is present and strictly positive. -/
def probedPositive (o : Option ℚ) : Bool :=
  match o with
  | some td => decide (0 < td)
  | none => false

/-- The dimensions one clip would contribute as "first validated clip":
a successfully converted-and-probed image wrapper contributes the configured
target dimensions; a validated video contributes its probed
(fallback-substituted) dimensions when both are nonzero; anything else
contributes nothing. -/
def clipDims (tw th : ℤ) (c : ClipEnv) : Option (ℤ × ℤ) :=
  match c with
  | ClipEnv.missing => none
  | ClipEnv.image convertOk tempExists tempProbe =>
    if convertOk ∧ tempExists ∧ probedPositive ((get_video_info tempProbe).1) then
      some (tw, th)
    else none
  | ClipEnv.video probe =>
    if probedPositive ((get_video_info probe).1) ∧
        dimOr tw ((get_video_info probe).2.1) ≠ 0 ∧
        dimOr th ((get_video_info probe).2.2.1) ≠ 0 then
      some (dimOr tw ((get_video_info probe).2.1), dimOr th ((get_video_info probe).2.2.1))
    else none

/-- Dimensions of the first clip that successfully provides them. -/
def firstValidDims (tw th : ℤ) : List ClipEnv → Option (ℤ × ℤ)
  | [] => none
  | c :: rest =>
    match clipDims tw th c with
    | some d => some d
    | none => firstValidDims tw th rest

theorem stepClip_dims_some (tw th : ℤ) (dcd : ℚ) (st : PreState) (c : ClipEnv)
    (w0 h0 : ℤ) (hc : clipDims tw th c = some (w0, h0)) (hf : st.dimsFound = false) :
    (stepClip tw th dcd st c).finalW = w0 ∧ (stepClip tw th dcd st c).finalH = h0 ∧
    (stepClip tw th dcd st c).dimsFound = true := by
  cases c with
  | missing => simp [clipDims] at hc
  | image cok tex tpr =>
    simp only [clipDims] at hc
    by_cases hcond : (cok = true ∧ tex = true ∧
        probedPositive ((get_video_info tpr).1) = true)
    · rw [if_pos hcond] at hc
      obtain ⟨hcok, htex, hpp⟩ := hcond
      have hc2 : tw = w0 ∧ th = h0 := by
        injection hc with hc3
        exact ⟨congrArg Prod.fst hc3, congrArg Prod.snd hc3⟩
      obtain ⟨rfl, rfl⟩ := hc2
      cases hg : (get_video_info tpr).1 with
      | none =>
        rw [hg] at hpp
        simp [probedPositive] at hpp
      | some td =>
        rw [hg] at hpp
        simp only [probedPositive, decide_eq_true_eq] at hpp
        refine ⟨?_, ?_, ?_⟩ <;> simp [stepClip, hcok, htex, hg, hpp, hf]
    · rw [if_neg hcond] at hc
      cases hc
  | video pr =>
    simp only [clipDims] at hc
    rcases hg : get_video_info pr with ⟨od, w, hh, a⟩
    rw [hg] at hc
    dsimp only at hc
    cases od with
    | none => simp [probedPositive] at hc
    | some d =>
      by_cases htd : 0 < d
      · by_cases hnz : (dimOr tw w ≠ 0 ∧ dimOr th hh ≠ 0)
        · rw [if_pos ⟨by simp [probedPositive, htd], hnz.1, hnz.2⟩] at hc
          have hc2 : dimOr tw w = w0 ∧ dimOr th hh = h0 := by
            injection hc with hc3
            exact ⟨congrArg Prod.fst hc3, congrArg Prod.snd hc3⟩
          obtain ⟨rfl, rfl⟩ := hc2
          refine ⟨?_, ?_, ?_⟩ <;> simp [stepClip, hg, htd, hnz.1, hnz.2, hf]
        · rw [if_neg (fun hcontra => hnz ⟨hcontra.2.1, hcontra.2.2⟩)] at hc
          cases hc
      · rw [if_neg (fun hcontra => htd (by
          have h1 := hcontra.1
          simp only [probedPositive, decide_eq_true_eq] at h1
          exact h1))] at hc
        cases hc

theorem stepClip_dims_none (tw th : ℤ) (dcd : ℚ) (st : PreState) (c : ClipEnv)
    (hc : clipDims tw th c = none) :
    (stepClip tw th dcd st c).finalW = st.finalW ∧
    (stepClip tw th dcd st c).finalH = st.finalH ∧
    (stepClip tw th dcd st c).dimsFound = st.dimsFound := by
  cases c with
  | missing => exact ⟨rfl, rfl, rfl⟩
  | image cok tex tpr =>
    simp only [clipDims] at hc
    by_cases hcond : (cok = true ∧ tex = true ∧
        probedPositive ((get_video_info tpr).1) = true)
    · rw [if_pos hcond] at hc
      cases hc
    · cases hcok : cok with
      | false => refine ⟨?_, ?_, ?_⟩ <;> simp [stepClip, hcok]
      | true =>
        cases htex : tex with
        | false => refine ⟨?_, ?_, ?_⟩ <;> simp [stepClip, hcok, htex]
        | true =>
          cases hg : (get_video_info tpr).1 with
          | none => refine ⟨?_, ?_, ?_⟩ <;> simp [stepClip, hcok, htex, hg]
          | some td =>
            have htd : ¬ (0 < td) := by
              intro hcontra
              apply hcond
              refine ⟨hcok, htex, ?_⟩
              rw [hg]
              simp [probedPositive, hcontra]
            refine ⟨?_, ?_, ?_⟩ <;> simp [stepClip, hcok, htex, hg, htd]
  | video pr =>
    simp only [clipDims] at hc
    rcases hg : get_video_info pr with ⟨od, w, hh, a⟩
    rw [hg] at hc
    dsimp only at hc
    cases od with
    | none => refine ⟨?_, ?_, ?_⟩ <;> simp [stepClip, hg]
    | some d =>
      by_cases htd : 0 < d
      · have hnz : ¬ (dimOr tw w ≠ 0 ∧ dimOr th hh ≠ 0) := by
          intro hcontra
          rw [if_pos ⟨by simp [probedPositive, htd], hcontra.1, hcontra.2⟩] at hc
          cases hc
        refine ⟨?_, ?_, ?_⟩ <;>
          · simp [stepClip, hg, htd]
            intro _ h1 h2
            exact absurd ⟨h1, h2⟩ hnz
      · refine ⟨?_, ?_, ?_⟩ <;> simp [stepClip, hg, htd]

theorem stepClip_dims_found (tw th : ℤ) (dcd : ℚ) (st : PreState) (c : ClipEnv)
    (hf : st.dimsFound = true) :
    (stepClip tw th dcd st c).finalW = st.finalW ∧
    (stepClip tw th dcd st c).finalH = st.finalH ∧
    (stepClip tw th dcd st c).dimsFound = true := by
  cases c with
  | missing => exact ⟨rfl, rfl, hf⟩
  | image cok tex tpr =>
    cases hcok : cok with
    | false => refine ⟨?_, ?_, ?_⟩ <;> simp [stepClip, hcok, hf]
    | true =>
      cases htex : tex with
      | false => refine ⟨?_, ?_, ?_⟩ <;> simp [stepClip, hcok, htex, hf]
      | true =>
        cases hg : (get_video_info tpr).1 with
        | none => refine ⟨?_, ?_, ?_⟩ <;> simp [stepClip, hcok, htex, hg, hf]
        | some td =>
          by_cases htd : 0 < td
          · refine ⟨?_, ?_, ?_⟩ <;> simp [stepClip, hcok, htex, hg, htd, hf]
          · refine ⟨?_, ?_, ?_⟩ <;> simp [stepClip, hcok, htex, hg, htd, hf]
  | video pr =>
    rcases hg : get_video_info pr with ⟨od, w, hh, a⟩
    cases od with
    | none => refine ⟨?_, ?_, ?_⟩ <;> simp [stepClip, hg, hf]
    | some d =>
      by_cases htd : 0 < d
      · refine ⟨?_, ?_, ?_⟩ <;> simp [stepClip, hg, htd, hf]
      · refine ⟨?_, ?_, ?_⟩ <;> simp [stepClip, hg, htd, hf]

theorem foldl_dims_found (tw th : ℤ) (dcd : ℚ) :
    ∀ (clips : List ClipEnv) (st : PreState), st.dimsFound = true →
    (clips.foldl (stepClip tw th dcd) st).finalW = st.finalW ∧
    (clips.foldl (stepClip tw th dcd) st).finalH = st.finalH ∧
    (clips.foldl (stepClip tw th dcd) st).dimsFound = true := by
  intro clips
  induction clips with
  | nil => intro st hf; exact ⟨rfl, rfl, hf⟩
  | cons c rest ih =>
    intro st hf
    have hs := stepClip_dims_found tw th dcd st c hf
    have hr := ih (stepClip tw th dcd st c) hs.2.2
    rw [List.foldl_cons]
    exact ⟨hr.1.trans hs.1, hr.2.1.trans hs.2.1, hr.2.2⟩

/-- The fold computes exactly the first validated clip's dimensions, falling
back to the incoming state's dimensions. -/
theorem foldl_dims_firstValid (tw th : ℤ) (dcd : ℚ) :
    ∀ (clips : List ClipEnv) (st : PreState), st.dimsFound = false →
    ((clips.foldl (stepClip tw th dcd) st).finalW,
     (clips.foldl (stepClip tw th dcd) st).finalH) =
      (firstValidDims tw th clips).getD (st.finalW, st.finalH) := by
  intro clips
  induction clips with
  | nil => intro st _; rfl
  | cons c rest ih =>
    intro st hf
    rw [List.foldl_cons]
    cases hc : clipDims tw th c with
    | some d =>
      obtain ⟨w0, h0⟩ := d
      have hs := stepClip_dims_some tw th dcd st c w0 h0 hc hf
      have hr := foldl_dims_found tw th dcd rest _ hs.2.2
      have hfv : firstValidDims tw th (c :: rest) = some (w0, h0) := by
        simp only [firstValidDims, hc]
      rw [hfv, hr.1, hr.2.1, hs.1, hs.2.1]
      rfl
    | none =>
      have hs := stepClip_dims_none tw th dcd st c hc
      have hfv : firstValidDims tw th (c :: rest) = firstValidDims tw th rest := by
        simp only [firstValidDims, hc]
      have hr := ih (stepClip tw th dcd st c) (hs.2.2.trans hf)
      rw [hfv, hr, hs.1, hs.2.1]

/-- C5 fails as stated: with an explicitly configured 1920x1080 target, a
first valid video clip probed at 640x480 still overrides the job target. -/
theorem C5_counterexample :
    (preprocess 1920 1080 5 [ClipEnv.video ⟨true, true, 5000,
        some ⟨some ⟨some 5, 640, 480⟩, some ⟨some 5, 640, 480⟩, none⟩⟩]).finalW ≠ 1920 := by
  have hg : get_video_info ⟨true, true, 5000,
      some ⟨some ⟨some 5, 640, 480⟩, some ⟨some 5, 640, 480⟩, none⟩⟩ =
      (some 5, some 640, some 480, true) := by
    norm_num [get_video_info, probeResult, pickDuration, pickDurationAud,
      pickDurationFmt, pickDims, sentinel]
  unfold preprocess
  rw [List.foldl_cons, List.foldl_nil]
  simp [stepClip, hg, dimOr]

/-- C5 amended: the job-wide dimensions are always those of the first
successfully validated clip that provides dimensions — an image wrapper
yields the configured target, a valid video yields its probed
(fallback-substituted) dimensions — and only when no clip provides dimensions
do the configured values survive.  An explicitly configured resolution is
therefore not honored when the first validated clip is a video with different
valid dimensions. -/
theorem C5_target_resolution_amended (tw th : ℤ) (dcd : ℚ) (clips : List ClipEnv) :
    ((preprocess tw th dcd clips).finalW, (preprocess tw th dcd clips).finalH) =
      (firstValidDims tw th clips).getD (tw, th) :=
  foldl_dims_firstValid tw th dcd clips ⟨[], 0, tw, th, false⟩ rfl

/-! ### Full composition control flow

`compose_video_ffmpeg_with_crossfade` whole-call behaviour.  Failure points
are those the source itself guards or that involve external effects: per-clip
probing and image conversion (inside `preprocess`), per-input stream
construction (the `except` at lines 276-279), and the final encode run with
its `ffmpeg.Error`/`Exception` handlers and `finally` cleanup (lines 342-391).
Pure filtergraph construction (lines 282-338) performs no external calls and
its only guarded region, background music, absorbs its own errors without
exiting, so neither is a failure point. -/

/-- Outcome of the final ffmpeg run. -/
inductive EncodeEnv where
  | runOk (outputExists : Bool) (outputSize : ℕ)
  | ffmpegError
  | otherError
deriving DecidableEq

structure ComposeEnv where
  clips : List ClipEnv
  /-- Whether stream construction for processed clip `i` raises (lines
  232-279). -/
  streamBuildFails : ℕ → Bool
  encode : EncodeEnv

inductive ComposeOutcome where
  | noInputPaths
  | noValidClips
  | streamBuildError
  | noProcessedInputs
  | success
  | outputMissing
  | ffmpegError
  | unexpectedError
deriving DecidableEq

/-- The encode-stage failures of lines 375-389. -/
def ComposeOutcome.isEncodeFailure : ComposeOutcome → Bool
  | ComposeOutcome.outputMissing => true
  | ComposeOutcome.ffmpegError => true
  | ComposeOutcome.unexpectedError => true
  | _ => false

/-- The input failures of lines 98-100 and 198-201. -/
def ComposeOutcome.isGlobalInputFailure : ComposeOutcome → Bool
  | ComposeOutcome.noInputPaths => true
  | ComposeOutcome.noValidClips => true
  | _ => false

structure ComposeResult where
  outcome : ComposeOutcome
  returnValue : Bool
  cleanupRan : Bool
  tempCreated : ℕ
  encodeAttempted : Bool
deriving DecidableEq

def anyStreamBuildFails (f : ℕ → Bool) (n : ℕ) : Bool :=
  (List.range n).any f

/-- The whole call: empty input list (line 98), pre-processing, the
no-valid-clips exit (line 198), per-input stream construction, and the final
encode with `finally` cleanup. -/
def compose (tw th : ℤ) (dcd : ℚ) (env : ComposeEnv) : ComposeResult :=
  if env.clips.isEmpty then
    ⟨ComposeOutcome.noInputPaths, false, false, 0, false⟩
  else if (preprocess tw th dcd env.clips).infos.isEmpty then
    ⟨ComposeOutcome.noValidClips, false, true,
      (preprocess tw th dcd env.clips).tempCount, false⟩
  else if anyStreamBuildFails env.streamBuildFails
      (preprocess tw th dcd env.clips).infos.length then
    ⟨ComposeOutcome.streamBuildError, false, true,
      (preprocess tw th dcd env.clips).tempCount, false⟩
  else
    match env.encode with
    | EncodeEnv.runOk ex size =>
      if ex ∧ 1000 < size then
        ⟨ComposeOutcome.success, true, true,
          (preprocess tw th dcd env.clips).tempCount, true⟩
      else
        ⟨ComposeOutcome.outputMissing, false, true,
          (preprocess tw th dcd env.clips).tempCount, true⟩
    | EncodeEnv.ffmpegError =>
      ⟨ComposeOutcome.ffmpegError, false, true,
        (preprocess tw th dcd env.clips).tempCount, true⟩
    | EncodeEnv.otherError =>
      ⟨ComposeOutcome.unexpectedError, false, true,
        (preprocess tw th dcd env.clips).tempCount, true⟩

/-- C8: when zero valid clips survive filtering, the job returns failure,
never attempts the encode (so no output file is produced), and the outcome is
a global input failure distinct from every encode failure. -/
theorem C8_zero_valid_clips (tw th : ℤ) (dcd : ℚ) (env : ComposeEnv)
    (h : (preprocess tw th dcd env.clips).infos = []) :
    (compose tw th dcd env).returnValue = false ∧
    (compose tw th dcd env).encodeAttempted = false ∧
    (compose tw th dcd env).outcome.isGlobalInputFailure = true ∧
    (compose tw th dcd env).outcome.isEncodeFailure = false := by
  unfold compose
  by_cases hc : env.clips.isEmpty = true
  · rw [if_pos hc]
    exact ⟨rfl, rfl, rfl, rfl⟩
  · have h2 : (preprocess tw th dcd env.clips).infos.isEmpty = true := by
      rw [h]
      rfl
    rw [if_neg hc, if_pos h2]
    exact ⟨rfl, rfl, rfl, rfl⟩

/-- Witness for C8: a single unresolvable path. -/
theorem C8_zero_valid_clips_witness :
    (compose 1280 720 5 ⟨[ClipEnv.missing], fun _ => false,
      EncodeEnv.runOk true 5000⟩).returnValue = false ∧
    (compose 1280 720 5 ⟨[ClipEnv.missing], fun _ => false,
      EncodeEnv.runOk true 5000⟩).encodeAttempted = false ∧
    (compose 1280 720 5 ⟨[ClipEnv.missing], fun _ => false,
      EncodeEnv.runOk true 5000⟩).outcome.isGlobalInputFailure = true ∧
    (compose 1280 720 5 ⟨[ClipEnv.missing], fun _ => false,
      EncodeEnv.runOk true 5000⟩).outcome.isEncodeFailure = false :=
  C8_zero_valid_clips 1280 720 5 _ rfl

/-- C4: on every exit path that exists after a temporary wrapper has been
tracked — no-valid-clips, stream-construction failure, encode success,
detected encode failure, `ffmpeg.Error`, or any other exception in the
guarded encode step — the cleanup step runs before the call completes. -/
theorem C4_cleanup_every_exit (tw th : ℤ) (dcd : ℚ) (env : ComposeEnv)
    (h : (compose tw th dcd env).tempCreated ≠ 0) :
    (compose tw th dcd env).cleanupRan = true := by
  unfold compose at h ⊢
  by_cases hc : env.clips.isEmpty = true
  · rw [if_pos hc] at h
    exact absurd rfl h
  · rw [if_neg hc] at h ⊢
    by_cases h2 : (preprocess tw th dcd env.clips).infos.isEmpty = true
    · rw [if_pos h2]
    · rw [if_neg h2]
      by_cases h3 : anyStreamBuildFails env.streamBuildFails
          (preprocess tw th dcd env.clips).infos.length = true
      · rw [if_pos h3]
      · rw [if_neg h3]
        cases henc : env.encode with
        | runOk ex size =>
          by_cases h4 : (ex = true ∧ 1000 < size)
          · dsimp only
            rw [if_pos h4]
          · dsimp only
            rw [if_neg h4]
        | ffmpegError => rfl
        | otherError => rfl

/-- Witness for C4: one image clip whose wrapper is created and tracked, then
the encode run raises `ffmpeg.Error` — the wrapper is still cleaned up. -/
theorem C4_cleanup_every_exit_witness :
    (compose 1280 720 5 ⟨[ClipEnv.image true true ⟨true, true, 5000,
        some ⟨some ⟨some 5, 640, 480⟩, none, none⟩⟩], fun _ => false,
      EncodeEnv.ffmpegError⟩).cleanupRan = true :=
  C4_cleanup_every_exit 1280 720 5 _ (by
    have hg : get_video_info ⟨true, true, 5000,
        some ⟨some ⟨some 5, 640, 480⟩, none, none⟩⟩ =
        (some 5, some 640, some 480, false) := by
      norm_num [get_video_info, probeResult, pickDuration, pickDurationAud,
        pickDurationFmt, pickDims, sentinel]
    have hpre : preprocess 1280 720 5 [ClipEnv.image true true ⟨true, true, 5000,
        some ⟨some ⟨some 5, 640, 480⟩, none, none⟩⟩] =
        ⟨[⟨5, 1280, 720, false, true⟩], 1, 1280, 720, true⟩ := by
      unfold preprocess
      rw [List.foldl_cons, List.foldl_nil]
      simp [stepClip, hg]
    unfold compose
    rw [hpre]
    simp [anyStreamBuildFails])

/-- Any entry `stepClip` adds to the working set is either a temporary image
wrapper marked silent, or a video entry (not temporary). -/
theorem stepClip_infos_mem (tw th : ℤ) (dcd : ℚ) (st : PreState) (c : ClipEnv)
    (info : ClipInfo) (h : info ∈ (stepClip tw th dcd st c).infos) :
    info ∈ st.infos ∨ (info.isTemp = true ∧ info.hasAudio = false) ∨
      info.isTemp = false := by
  cases c with
  | missing => exact Or.inl h
  | image cok tex tpr =>
    cases cok with
    | false =>
      simp [stepClip] at h
      exact Or.inl h
    | true =>
      cases tex with
      | false =>
        simp [stepClip] at h
        exact Or.inl h
      | true =>
        cases hg : (get_video_info tpr).1 with
        | none =>
          simp [stepClip, hg] at h
          rcases h with h | rfl
          · exact Or.inl h
          · exact Or.inr (Or.inl ⟨rfl, rfl⟩)
        | some td =>
          by_cases htd : 0 < td
          · simp [stepClip, hg, htd] at h
            rcases h with h | rfl
            · exact Or.inl h
            · exact Or.inr (Or.inl ⟨rfl, rfl⟩)
          · simp [stepClip, hg, htd] at h
            rcases h with h | rfl
            · exact Or.inl h
            · exact Or.inr (Or.inl ⟨rfl, rfl⟩)
  | video pr =>
    rcases hg : get_video_info pr with ⟨od, w, hh, a⟩
    cases od with
    | none =>
      simp [stepClip, hg] at h
      exact Or.inl h
    | some d =>
      by_cases htd : 0 < d
      · simp [stepClip, hg, htd] at h
        rcases h with h | rfl
        · exact Or.inl h
        · exact Or.inr (Or.inr rfl)
      · simp [stepClip, hg, htd] at h
        exact Or.inl h

/-- Every temporary wrapper in the pre-processed working set is silent. -/
theorem preprocess_temp_silent (tw th : ℤ) (dcd : ℚ) :
    ∀ (clips : List ClipEnv) (st : PreState),
    (∀ info ∈ st.infos, info.isTemp = true → info.hasAudio = false) →
    ∀ info ∈ (clips.foldl (stepClip tw th dcd) st).infos,
      info.isTemp = true → info.hasAudio = false := by
  intro clips
  induction clips with
  | nil => intro st hst; exact hst
  | cons c rest ih =>
    intro st hst
    rw [List.foldl_cons]
    apply ih
    intro info hmem htemp
    rcases stepClip_infos_mem tw th dcd st c info hmem with h | h | h
    · exact hst info h htemp
    · exact h.2
    · rw [h] at htemp
      cases htemp

/-- For a clip with no audio, the mixing stream is exactly `adelay` applied to
generated silence of the clip's own stored duration. -/
theorem silentStream_shape (infos : List ClipInfo) (t : ℚ) (i : ℕ)
    (hi : i < infos.length) (hna : (infos.getD i defaultClip).hasAudio = false) :
    (audioStreamsForMixing infos t).getD i (AStream.silence 0) =
      AStream.adelay
        (pyInt ((clipStartTimes (infos.map fun c => c.duration) t).getD i 0 * 1000))
        (pyInt ((clipStartTimes (infos.map fun c => c.duration) t).getD i 0 * 1000))
        (AStream.silence (infos.getD i defaultClip).duration) ∧
    aduration (infos.map fun c => c.duration)
        (AStream.silence (infos.getD i defaultClip).duration) =
      (infos.getD i defaultClip).duration ∧
    aduration (infos.map fun c => c.duration)
        ((audioStreamsForMixing infos t).getD i (AStream.silence 0)) =
      ((pyInt ((clipStartTimes (infos.map fun c => c.duration) t).getD i 0 * 1000) : ℤ) : ℚ)
          / 1000 +
        (infos.getD i defaultClip).duration := by
  have hoffsl : i < (clipStartTimes (infos.map fun c => c.duration) t).length := by
    rw [clipStartTimes_length, List.length_map]
    exact hi
  have hgd : (audioStreamsForMixing infos t).getD i (AStream.silence 0) =
      buildAudioDelayed (infos.getD i defaultClip) i
        ((clipStartTimes (infos.map fun c => c.duration) t).getD i 0) := by
    unfold audioStreamsForMixing
    rw [mixInputsAux_getD infos _ 0 i hi hoffsl, Nat.zero_add]
  have hbase : buildAudioBase (infos.getD i defaultClip) i =
      AStream.silence (infos.getD i defaultClip).duration := by
    unfold buildAudioBase
    rw [if_neg (by rw [hna]; exact Bool.false_ne_true)]
  refine ⟨?_, rfl, ?_⟩
  · rw [hgd]
    unfold buildAudioDelayed
    rw [hbase]
  · rw [hgd, aduration_buildAudioDelayed, hbase]
    rfl

/-- C6: every temporary image wrapper in the working set is silent, and every
clip without audio (wrapper or video) contributes generated silence of exactly
its own duration, delayed by `int(offset*1000)` ms, to the mixing list —
never shorter or longer. -/
theorem C6_silent_clip_contribution (tw th : ℤ) (dcd : ℚ) (clips : List ClipEnv)
    (t : ℚ) (i : ℕ)
    (hi : i < (preprocess tw th dcd clips).infos.length)
    (hna : (((preprocess tw th dcd clips).infos).getD i defaultClip).hasAudio = false) :
    (∀ info ∈ (preprocess tw th dcd clips).infos,
      info.isTemp = true → info.hasAudio = false) ∧
    (audioStreamsForMixing (preprocess tw th dcd clips).infos t).getD i
        (AStream.silence 0) =
      AStream.adelay
        (pyInt ((clipStartTimes ((preprocess tw th dcd clips).infos.map
          fun c => c.duration) t).getD i 0 * 1000))
        (pyInt ((clipStartTimes ((preprocess tw th dcd clips).infos.map
          fun c => c.duration) t).getD i 0 * 1000))
        (AStream.silence (((preprocess tw th dcd clips).infos).getD i
          defaultClip).duration) ∧
    aduration ((preprocess tw th dcd clips).infos.map fun c => c.duration)
        (AStream.silence (((preprocess tw th dcd clips).infos).getD i
          defaultClip).duration) =
      (((preprocess tw th dcd clips).infos).getD i defaultClip).duration ∧
    aduration ((preprocess tw th dcd clips).infos.map fun c => c.duration)
        ((audioStreamsForMixing (preprocess tw th dcd clips).infos t).getD i
          (AStream.silence 0)) =
      ((pyInt ((clipStartTimes ((preprocess tw th dcd clips).infos.map
          fun c => c.duration) t).getD i 0 * 1000) : ℤ) : ℚ) / 1000 +
        (((preprocess tw th dcd clips).infos).getD i defaultClip).duration := by
  have hshape := silentStream_shape (preprocess tw th dcd clips).infos t i hi hna
  refine ⟨?_, hshape.1, hshape.2.1, hshape.2.2⟩
  exact preprocess_temp_silent tw th dcd clips ⟨[], 0, tw, th, false⟩
    (by intro info hmem; cases hmem)

/-- Witness for C6: one image wrapper probed at 5 s, scheduled at offset 0. -/
theorem C6_silent_clip_contribution_witness :
    (∀ info ∈ (preprocess 1280 720 5 [ClipEnv.image true true ⟨true, true, 5000,
        some ⟨some ⟨some 5, 640, 480⟩, none, none⟩⟩]).infos,
      info.isTemp = true → info.hasAudio = false) ∧
    (audioStreamsForMixing (preprocess 1280 720 5 [ClipEnv.image true true ⟨true, true,
        5000, some ⟨some ⟨some 5, 640, 480⟩, none, none⟩⟩]).infos (3/5)).getD 0
        (AStream.silence 0) =
      AStream.adelay
        (pyInt ((clipStartTimes ((preprocess 1280 720 5 [ClipEnv.image true true ⟨true,
          true, 5000, some ⟨some ⟨some 5, 640, 480⟩, none, none⟩⟩]).infos.map
          fun c => c.duration) (3/5)).getD 0 0 * 1000))
        (pyInt ((clipStartTimes ((preprocess 1280 720 5 [ClipEnv.image true true ⟨true,
          true, 5000, some ⟨some ⟨some 5, 640, 480⟩, none, none⟩⟩]).infos.map
          fun c => c.duration) (3/5)).getD 0 0 * 1000))
        (AStream.silence (((preprocess 1280 720 5 [ClipEnv.image true true ⟨true, true,
          5000, some ⟨some ⟨some 5, 640, 480⟩, none, none⟩⟩]).infos).getD 0
          defaultClip).duration) ∧
    aduration ((preprocess 1280 720 5 [ClipEnv.image true true ⟨true, true, 5000,
        some ⟨some ⟨some 5, 640, 480⟩, none, none⟩⟩]).infos.map fun c => c.duration)
        (AStream.silence (((preprocess 1280 720 5 [ClipEnv.image true true ⟨true, true,
          5000, some ⟨some ⟨some 5, 640, 480⟩, none, none⟩⟩]).infos).getD 0
          defaultClip).duration) =
      (((preprocess 1280 720 5 [ClipEnv.image true true ⟨true, true, 5000,
        some ⟨some ⟨some 5, 640, 480⟩, none, none⟩⟩]).infos).getD 0
        defaultClip).duration ∧
    aduration ((preprocess 1280 720 5 [ClipEnv.image true true ⟨true, true, 5000,
        some ⟨some ⟨some 5, 640, 480⟩, none, none⟩⟩]).infos.map fun c => c.duration)
        ((audioStreamsForMixing (preprocess 1280 720 5 [ClipEnv.image true true ⟨true,
          true, 5000, some ⟨some ⟨some 5, 640, 480⟩, none, none⟩⟩]).infos (3/5)).getD 0
          (AStream.silence 0)) =
      ((pyInt ((clipStartTimes ((preprocess 1280 720 5 [ClipEnv.image true true ⟨true,
          true, 5000, some ⟨some ⟨some 5, 640, 480⟩, none, none⟩⟩]).infos.map
          fun c => c.duration) (3/5)).getD 0 0 * 1000) : ℤ) : ℚ) / 1000 +
        (((preprocess 1280 720 5 [ClipEnv.image true true ⟨true, true, 5000,
          some ⟨some ⟨some 5, 640, 480⟩, none, none⟩⟩]).infos).getD 0
          defaultClip).duration :=
  C6_silent_clip_contribution 1280 720 5
    [ClipEnv.image true true ⟨true, true, 5000,
      some ⟨some ⟨some 5, 640, 480⟩, none, none⟩⟩] (3/5) 0
    (by
      have hg : get_video_info ⟨true, true, 5000,
          some ⟨some ⟨some 5, 640, 480⟩, none, none⟩⟩ =
          (some 5, some 640, some 480, false) := by
        norm_num [get_video_info, probeResult, pickDuration, pickDurationAud,
          pickDurationFmt, pickDims, sentinel]
      have hpre : preprocess 1280 720 5 [ClipEnv.image true true ⟨true, true, 5000,
          some ⟨some ⟨some 5, 640, 480⟩, none, none⟩⟩] =
          ⟨[⟨5, 1280, 720, false, true⟩], 1, 1280, 720, true⟩ := by
        unfold preprocess
        rw [List.foldl_cons, List.foldl_nil]
        simp [stepClip, hg]
      rw [hpre]
      norm_num)
    (by
      have hg : get_video_info ⟨true, true, 5000,
          some ⟨some ⟨some 5, 640, 480⟩, none, none⟩⟩ =
          (some 5, some 640, some 480, false) := by
        norm_num [get_video_info, probeResult, pickDuration, pickDurationAud,
          pickDurationFmt, pickDims, sentinel]
      have hpre : preprocess 1280 720 5 [ClipEnv.image true true ⟨true, true, 5000,
          some ⟨some ⟨some 5, 640, 480⟩, none, none⟩⟩] =
          ⟨[⟨5, 1280, 720, false, true⟩], 1, 1280, 720, true⟩ := by
        unfold preprocess
        rw [List.foldl_cons, List.foldl_nil]
        simp [stepClip, hg]
      rw [hpre]
      rfl)

end VideoComposer
